import Mathlib

/-!
Verification of the Best-Fit outfit suggestion backend.

The definitions below are a shallow embedding of the Python sources
`backend/app/services/color_service.py` and
`backend/app/services/outfit_service.py` (plus the enumerations of
`backend/app/models/clothing.py`).  Python floats are modelled as exact
rationals (`ℚ`), Python `int()` as truncation toward zero, Python `%` on
floats as the sign-follows-divisor remainder, and `round(x, 2)` as
round-half-to-even at two decimal places.
-/

namespace BestFit

/-- Python `int(x)`: truncation toward zero. -/
def pyint (x : ℚ) : ℤ := if x < 0 then -⌊-x⌋ else ⌊x⌋

/-- Python `x % m` on floats (`m > 0`): remainder with the sign of `m`. -/
def pymod (x m : ℚ) : ℚ := x - m * ⌊x / m⌋

/-- Round-half-to-even to the nearest integer, as Python's `round` does. -/
def roundHalfEven (x : ℚ) : ℤ :=
  if Int.fract x < 1/2 then ⌊x⌋
  else if 1/2 < Int.fract x then ⌊x⌋ + 1
  else if ⌊x⌋ % 2 = 0 then ⌊x⌋ else ⌊x⌋ + 1

/-- Python `round(x, 2)`. -/
def pyRound2 (x : ℚ) : ℚ := (roundHalfEven (x * 100) : ℚ) / 100

/-- An RGB triple; channel values are integers (0–255 for real colors). -/
abbrev RGB := ℤ × ℤ × ℤ

/-! ### `colorsys.rgb_to_hls` / `colorsys.hls_to_rgb`
Embedded from CPython's `colorsys` module, which `color_service.py` calls
with channels scaled to `[0,1]`. -/

/-- `colorsys.rgb_to_hls`: returns `(h, l, s)`, each a fraction. -/
def rgb_to_hls (r g b : ℚ) : ℚ × ℚ × ℚ :=
  let maxc := max r (max g b)
  let minc := min r (min g b)
  let sumc := maxc + minc
  let rangec := maxc - minc
  let l := sumc / 2
  if minc = maxc then (0, l, 0) else
  let s := if l ≤ 1/2 then rangec / sumc else rangec / (2 - sumc)
  let rc := (maxc - r) / rangec
  let gc := (maxc - g) / rangec
  let bc := (maxc - b) / rangec
  let h := if r = maxc then bc - gc
           else if g = maxc then 2 + rc - bc
           else 4 + gc - rc
  (Int.fract (h / 6), l, s)

/-- `colorsys._v`: the trapezoidal channel profile. -/
def hlsV (m1 m2 hue : ℚ) : ℚ :=
  let hue := Int.fract hue
  if hue < 1/6 then m1 + (m2 - m1) * hue * 6
  else if hue < 1/2 then m2
  else if hue < 2/3 then m1 + (m2 - m1) * (2/3 - hue) * 6
  else m1

/-- `colorsys.hls_to_rgb`. -/
def hls_to_rgb (h l s : ℚ) : ℚ × ℚ × ℚ :=
  if s = 0 then (l, l, l) else
  let m2 := if l ≤ 1/2 then l * (1 + s) else l + s - l * s
  let m1 := 2 * l - m2
  (hlsV m1 m2 (h + 1/3), hlsV m1 m2 h, hlsV m1 m2 (h - 1/3))

/-! ### `ColorHarmonyService` (color_service.py) -/

/-- `ColorHarmonyService.rgb_to_hsl`: hue in degrees, saturation and
lightness in percent. -/
def rgb_to_hsl (rgb : RGB) : ℚ × ℚ × ℚ :=
  let hls := rgb_to_hls ((rgb.1 : ℚ) / 255) ((rgb.2.1 : ℚ) / 255) ((rgb.2.2 : ℚ) / 255)
  (hls.1 * 360, hls.2.2 * 100, hls.2.1 * 100)

/-- `ColorHarmonyService.hsl_to_rgb`: back to integer channels via `int()`. -/
def hsl_to_rgb (hsl : ℚ × ℚ × ℚ) : RGB :=
  let rgb := hls_to_rgb (hsl.1 / 360) (hsl.2.2 / 100) (hsl.2.1 / 100)
  (pyint (rgb.1 * 255), pyint (rgb.2.1 * 255), pyint (rgb.2.2 * 255))

/-- `ColorHarmonyService.get_complementary`. -/
def get_complementary (rgb : RGB) : RGB :=
  let hsl := rgb_to_hsl rgb
  let new_h := pymod (hsl.1 + 180) 360
  hsl_to_rgb (new_h, hsl.2.1, hsl.2.2)

/-- The circular hue difference as computed inside
`calculate_harmony_score` and `colors_match`:
`h_diff = abs(h1-h2); if h_diff > 180: h_diff = 360 - h_diff`. -/
def hueDiff (h1 h2 : ℚ) : ℚ :=
  let d := |h1 - h2|
  if d > 180 then 360 - d else d

/-- The per-pair score adjustment of `calculate_harmony_score`. -/
def pairAdjust (d : ℚ) : ℚ :=
  if 165 ≤ d ∧ d ≤ 195 then 10
  else if d ≤ 45 then 5
  else if 105 ≤ d ∧ d ≤ 135 then 8
  else if 60 ≤ d ∧ d ≤ 90 then -15
  else 0

/-- Total adjustment over ordered index pairs `i < j` (the double loop
`for i, c1 in enumerate(...): for c2 in hsl_colors[i+1:]`). -/
def pairScores (dOf : ℚ → ℚ → ℚ) : List ℚ → ℚ
  | [] => 0
  | h :: t => (t.map (fun h2 => pairAdjust (dOf h h2))).sum + pairScores dOf t

/-- `ColorHarmonyService.calculate_harmony_score`. -/
def calculate_harmony_score (colors : List RGB) : ℚ :=
  if colors.length < 2 then 100
  else
    let hues := colors.map (fun c => (rgb_to_hsl c).1)
    max 0 (min 100 (100 + pairScores hueDiff hues))

/-- `ColorHarmonyService.colors_match`. -/
def colors_match (rgb1 rgb2 : RGB) (scheme : String) (tolerance : ℚ) : Bool :=
  let h1 := (rgb_to_hsl rgb1).1
  let h2 := (rgb_to_hsl rgb2).1
  let d := hueDiff h1 h2
  if scheme = "complementary" then decide (|d - 180| ≤ tolerance)
  else if scheme = "analogous" then decide (d ≤ tolerance)
  else if scheme = "triadic" then decide (|d - 120| ≤ tolerance) || decide (|d - 240| ≤ tolerance)
  else if scheme = "monochromatic" then decide (d ≤ 15)
  else true

/-! ### Data model (models/clothing.py) -/

/-- `ClothingCategory` enumeration. -/
inductive ClothingCategory
  | top | bottom | dress | outerwear | shoes | accessory
  deriving DecidableEq, Repr

/-- `ClothingStyle` enumeration. -/
inductive ClothingStyle
  | casual | formal | sporty | business | evening | bohemian | streetwear | vintage
  deriving DecidableEq, Repr

/-- `ColorInfo` pydantic model. -/
structure ColorInfo where
  hex : String
  rgb : RGB
  name : String
  percentage : ℚ
  deriving DecidableEq, Repr

/-- `ClothingItem` pydantic model (the fields the core logic reads). -/
structure ClothingItem where
  id : String
  name : String
  category : ClothingCategory
  style : ClothingStyle
  dominant_colors : List ColorInfo
  tags : List String
  deriving DecidableEq, Repr

/-! ### `OutfitGeneratorService` (outfit_service.py) -/

/-- `OUTFIT_COMBINATIONS`: the eight valid category patterns. -/
def OUTFIT_COMBINATIONS : List (List ClothingCategory) :=
  [[.top, .bottom],
   [.top, .bottom, .shoes],
   [.top, .bottom, .outerwear],
   [.top, .bottom, .outerwear, .shoes],
   [.dress],
   [.dress, .shoes],
   [.dress, .outerwear],
   [.dress, .outerwear, .shoes]]

/-- `get_dominant_rgb`: first dominant color, if any. -/
def get_dominant_rgb (item : ClothingItem) : Option RGB :=
  match item.dominant_colors with
  | [] => none
  | c :: _ => some c.rgb

/-- `calculate_outfit_harmony`. -/
def calculate_outfit_harmony (items : List ClothingItem) : ℚ :=
  let colors := items.filterMap get_dominant_rgb
  if colors.length < 2 then 100
  else calculate_harmony_score colors

/-- `compatible_pairs` of `check_style_compatibility`. -/
def compatible_pairs : List (ClothingStyle × ClothingStyle) :=
  [(.casual, .streetwear), (.formal, .business), (.evening, .formal),
   (.bohemian, .casual), (.sporty, .casual), (.vintage, .bohemian)]

/-- The adjacent-pair walk `for s1, s2 in zip(styles, styles[1:])`. -/
def adjacentStyleWalk : List ClothingStyle → ℚ
  | s1 :: s2 :: rest =>
      (if s1 = s2 then 10
       else if (s1, s2) ∈ compatible_pairs ∨ (s2, s1) ∈ compatible_pairs then 5
       else -10) + adjacentStyleWalk (s2 :: rest)
  | _ => 0

/-- `check_style_compatibility`. -/
def check_style_compatibility (items : List ClothingItem) : ℚ :=
  match items with
  | [] => 0
  | first :: rest =>
      let styles := (first :: rest).map (·.style)
      if rest.all (fun j => decide (j.style = first.style)) then 100
      else max 0 (min 100 (50 + adjacentStyleWalk styles))

/-- One outfit suggestion record, as assembled in both generation modes. -/
structure Suggestion where
  items : List ClothingItem
  color_harmony_score : ℚ
  style_compatibility_score : ℚ
  total_score : ℚ
  pattern : List ClothingCategory
  deriving DecidableEq, Repr

/-- The suggestion record built for one surviving combination
(`harmony*0.6 + style*0.4`, all three scores rounded to 2 decimals). -/
def mkSuggestion (outfit_items : List ClothingItem)
    (pattern : List ClothingCategory) : Suggestion :=
  let harmony_score := calculate_outfit_harmony outfit_items
  let style_score := check_style_compatibility outfit_items
  let total_score := harmony_score * (6/10) + style_score * (4/10)
  { items := outfit_items
    color_harmony_score := pyRound2 harmony_score
    style_compatibility_score := pyRound2 style_score
    total_score := pyRound2 total_score
    pattern := pattern }

/-- The grouping `items_by_category[cat]` (insertion order preserved). -/
def byCat (items : List ClothingItem) (cat : ClothingCategory) : List ClothingItem :=
  items.filter (fun i => decide (i.category = cat))

/-- `itertools.product` over a list of option lists, first list outermost. -/
def listProd : List (List ClothingItem) → List (List ClothingItem)
  | [] => [[]]
  | l :: ls => (l.map (fun x => (listProd ls).map (x :: ·))).flatten

/-- Python truthiness of an `Optional[str]` (`None` and `""` are falsy). -/
def optStrTruthy : Option String → Bool
  | none => false
  | some s => !s.isEmpty

/-- The base-item-mode narrowing of one category's option list
(`if color_scheme and base_rgb: ... if filtered: options = filtered`). -/
def narrowOptions (color_scheme : Option String) (base_rgb : Option RGB)
    (options : List ClothingItem) : List ClothingItem :=
  match color_scheme, base_rgb with
  | some sch, some brgb =>
      if sch.isEmpty then options
      else
        let filtered := options.filter (fun item =>
          match get_dominant_rgb item with
          | some irgb => colors_match brgb irgb sch 30
          | none => false)
        if filtered = [] then options else filtered
  | _, _ => options

/-- `_generate_from_base`. -/
def generate_from_base (base_item : ClothingItem) (all_items : List ClothingItem)
    (color_scheme : Option String) : List Suggestion :=
  let base_rgb := get_dominant_rgb base_item
  ((OUTFIT_COMBINATIONS.filter (fun pattern => decide (base_item.category ∈ pattern))).map
    (fun pattern =>
      let other_categories := pattern.filter (fun c => decide (c ≠ base_item.category))
      let category_options := other_categories.filterMap (fun cat =>
        let options := byCat all_items cat
        if options = [] then none
        else some (narrowOptions color_scheme base_rgb options))
      if category_options.length = other_categories.length then
        (listProd category_options).map (fun combo => mkSuggestion (base_item :: combo) pattern)
      else [])).flatten

/-- The open-mode color-scheme gate of `_generate_all_combinations`:
collect the items' dominant colors, drop `None`s, and when at least two
remain require the first two to match the scheme. -/
def openModeGate (color_scheme : Option String) (outfit_items : List ClothingItem) : Bool :=
  match color_scheme with
  | none => true
  | some sch =>
      if sch.isEmpty then true
      else
        match outfit_items.filterMap get_dominant_rgb with
        | c1 :: c2 :: _ => colors_match c1 c2 sch 30
        | _ => true

/-- `_generate_all_combinations`. -/
def generate_all_combinations (all_items : List ClothingItem)
    (color_scheme : Option String) : List Suggestion :=
  (OUTFIT_COMBINATIONS.map (fun pattern =>
    if pattern.all (fun cat => decide (byCat all_items cat ≠ [])) then
      ((listProd (pattern.map (byCat all_items))).filter
          (fun combo => openModeGate color_scheme combo)).map
        (fun combo => mkSuggestion combo pattern)
    else [])).flatten

/-- Everything `generate_outfit_suggestions` does before the final sort
and truncation: style filtering (with empty-filter fallback) and mode
dispatch. -/
def rawSuggestions (all_items : List ClothingItem) (base_item_id : Option String)
    (style : Option ClothingStyle) (color_scheme : Option String) : List Suggestion :=
  let all_items :=
    match style with
    | some st =>
        let filtered_items := all_items.filter (fun i => decide (i.style = st))
        if filtered_items = [] then all_items else filtered_items
    | none => all_items
  if optStrTruthy base_item_id then
    match all_items.find? (fun i => decide (i.id = base_item_id.getD "")) with
    | some base_item => generate_from_base base_item all_items color_scheme
    | none => []
  else generate_all_combinations all_items color_scheme

/-- Stable insertion for a descending sort by a rational key: an element
is placed before the first entry whose key is not larger, so equal-key
entries keep their original relative order. -/
def insertByDesc {α : Type} (key : α → ℚ) (x : α) : List α → List α
  | [] => [x]
  | y :: ys => if key x < key y then y :: insertByDesc key x ys else x :: y :: ys

/-- Python's stable `sort(key=..., reverse=True)`. -/
def sortByDesc {α : Type} (key : α → ℚ) : List α → List α
  | [] => []
  | x :: xs => insertByDesc key x (sortByDesc key xs)

/-- `generate_outfit_suggestions` (after the storage/request plumbing has
produced `all_items`). -/
def generate_outfit_suggestions (all_items : List ClothingItem)
    (base_item_id : Option String) (style : Option ClothingStyle)
    (color_scheme : Option String) (max_suggestions : ℕ) : List Suggestion :=
  if all_items = [] then []
  else
    (sortByDesc (·.total_score)
      (rawSuggestions all_items base_item_id style color_scheme)).take max_suggestions

/-! ### Basic facts about hues -/

theorem rgb_to_hls_h_nonneg (x y z : ℚ) : 0 ≤ (rgb_to_hls x y z).1 := by
  simp only [rgb_to_hls]
  split_ifs <;> simp [Int.fract_nonneg]

theorem rgb_to_hls_h_lt_one (x y z : ℚ) : (rgb_to_hls x y z).1 < 1 := by
  simp only [rgb_to_hls]
  split_ifs <;> simp [Int.fract_lt_one]

theorem hue_nonneg (c : RGB) : 0 ≤ (rgb_to_hsl c).1 := by
  simp only [rgb_to_hsl]
  have := rgb_to_hls_h_nonneg ((c.1 : ℚ) / 255) ((c.2.1 : ℚ) / 255) ((c.2.2 : ℚ) / 255)
  nlinarith

theorem hue_lt_360 (c : RGB) : (rgb_to_hsl c).1 < 360 := by
  simp only [rgb_to_hsl]
  have := rgb_to_hls_h_lt_one ((c.1 : ℚ) / 255) ((c.2.1 : ℚ) / 255) ((c.2.2 : ℚ) / 255)
  nlinarith

/-- The spec's formulation of the circular hue difference. -/
def circularHueDiffSpec (h1 h2 : ℚ) : ℚ := min |h1 - h2| (360 - |h1 - h2|)

/-- For hues in `[0, 360)` the code's two-step computation agrees with the
spec's `min(|h1-h2|, 360-|h1-h2|)`. -/
theorem hueDiff_eq_spec {h1 h2 : ℚ} (h1l : 0 ≤ h1) (h1u : h1 < 360)
    (h2l : 0 ≤ h2) (h2u : h2 < 360) :
    hueDiff h1 h2 = circularHueDiffSpec h1 h2 := by
  simp only [hueDiff, circularHueDiffSpec]
  have habs : |h1 - h2| < 360 := by
    rw [abs_lt]; constructor <;> linarith
  split_ifs with h
  · rw [min_eq_right]; linarith
  · rw [min_eq_left]; linarith

theorem hueDiff_le_180 {h1 h2 : ℚ} (h1l : 0 ≤ h1) (h1u : h1 < 360)
    (h2l : 0 ≤ h2) (h2u : h2 < 360) : hueDiff h1 h2 ≤ 180 := by
  simp only [hueDiff]
  have habs : |h1 - h2| < 360 := by
    rw [abs_lt]; constructor <;> linarith
  split_ifs with h <;> linarith

/-! ### Claim C1: the harmony score -/

/-- `harmonyScore` as the claim words it: 100 for fewer than two colors,
otherwise 100 adjusted per unordered pair with
`d = min(|h1-h2|, 360-|h1-h2|)` and clamped to `[0,100]`. -/
def harmonyScoreSpec (colors : List RGB) : ℚ :=
  if colors.length < 2 then 100
  else
    max 0 (min 100
      (100 + pairScores circularHueDiffSpec (colors.map (fun c => (rgb_to_hsl c).1))))

theorem pairScores_congr (dOf dOf' : ℚ → ℚ → ℚ) (l : List ℚ)
    (h : ∀ a ∈ l, ∀ b ∈ l, pairAdjust (dOf a b) = pairAdjust (dOf' a b)) :
    pairScores dOf l = pairScores dOf' l := by
  induction l with
  | nil => rfl
  | cons x t ih =>
      simp only [pairScores]
      have hmap : List.map (fun h2 => pairAdjust (dOf x h2)) t
          = List.map (fun h2 => pairAdjust (dOf' x h2)) t :=
        List.map_congr_left (fun b hb =>
          h x (List.mem_cons_self x t) b (List.mem_cons_of_mem x hb))
      rw [hmap, ih (fun a ha b hb =>
        h a (List.mem_cons_of_mem x ha) b (List.mem_cons_of_mem x hb))]

/-- C1: `calculate_harmony_score` computes exactly the claimed function:
100.0 for fewer than two colors, and otherwise 100 adjusted for every
unordered pair by the circular-hue-difference bands and clamped to
`[0,100]`. -/
theorem harmony_score_spec (colors : List RGB) :
    calculate_harmony_score colors = harmonyScoreSpec colors := by
  have hcongr : pairScores hueDiff (colors.map (fun c => (rgb_to_hsl c).1))
      = pairScores circularHueDiffSpec (colors.map (fun c => (rgb_to_hsl c).1)) := by
    apply pairScores_congr
    intro a ha b hb
    simp only [List.mem_map] at ha hb
    obtain ⟨ca, _, rfl⟩ := ha
    obtain ⟨cb, _, rfl⟩ := hb
    rw [hueDiff_eq_spec (hue_nonneg ca) (hue_lt_360 ca) (hue_nonneg cb) (hue_lt_360 cb)]
  simp only [calculate_harmony_score, harmonyScoreSpec, hcongr]

/-! ### Claim C6: the scheme-matching predicate -/

/-- `colorsMatch` as the claim words it, with
`d = min(|h1-h2|, 360-|h1-h2|)` of the two HSL hues. -/
def colorsMatchSpec (rgb1 rgb2 : RGB) (scheme : String) (tolerance : ℚ) : Bool :=
  let d := circularHueDiffSpec (rgb_to_hsl rgb1).1 (rgb_to_hsl rgb2).1
  if scheme = "complementary" then decide (|d - 180| ≤ tolerance)
  else if scheme = "analogous" then decide (d ≤ tolerance)
  else if scheme = "triadic" then decide (|d - 120| ≤ tolerance) || decide (|d - 240| ≤ tolerance)
  else if scheme = "monochromatic" then decide (d ≤ 15)
  else true

/-- C6: for every pair of colors, every scheme string and every tolerance,
`colors_match` returns exactly what the claim describes: the
complementary / analogous / triadic / monochromatic tests on the circular
hue difference, and `true` for any scheme outside that closed set. -/
theorem colors_match_spec (rgb1 rgb2 : RGB) (scheme : String) (tolerance : ℚ) :
    colors_match rgb1 rgb2 scheme tolerance = colorsMatchSpec rgb1 rgb2 scheme tolerance := by
  simp only [colors_match, colorsMatchSpec,
    hueDiff_eq_spec (hue_nonneg rgb1) (hue_lt_360 rgb1) (hue_nonneg rgb2) (hue_lt_360 rgb2)]

/-! ### Properties of the stable descending sort -/

theorem insertByDesc_perm {α : Type} (key : α → ℚ) (x : α) (l : List α) :
    (insertByDesc key x l).Perm (x :: l) := by
  induction l with
  | nil => exact List.Perm.refl _
  | cons y ys ih =>
      simp only [insertByDesc]
      split_ifs with h
      · exact (List.Perm.cons y ih).trans (List.Perm.swap x y ys)
      · exact List.Perm.refl _

theorem sortByDesc_perm {α : Type} (key : α → ℚ) (l : List α) :
    (sortByDesc key l).Perm l := by
  induction l with
  | nil => exact List.Perm.refl _
  | cons x xs ih =>
      exact (insertByDesc_perm key x (sortByDesc key xs)).trans (List.Perm.cons x ih)

theorem insertByDesc_sorted {α : Type} (key : α → ℚ) (x : α) {l : List α}
    (hl : l.Sorted (fun a b => key b ≤ key a)) :
    (insertByDesc key x l).Sorted (fun a b => key b ≤ key a) := by
  induction l with
  | nil => simp [insertByDesc]
  | cons y ys ih =>
      rw [List.sorted_cons] at hl
      obtain ⟨hy, hys⟩ := hl
      simp only [insertByDesc]
      split_ifs with h
      · rw [List.sorted_cons]
        refine ⟨?_, ih hys⟩
        intro z hz
        have hz' : z ∈ x :: ys := (insertByDesc_perm key x ys).mem_iff.mp hz
        rcases List.mem_cons.mp hz' with rfl | hz'
        · linarith
        · exact hy z hz'
      · rw [List.sorted_cons]
        refine ⟨?_, List.sorted_cons.mpr ⟨hy, hys⟩⟩
        intro z hz
        rcases List.mem_cons.mp hz with hz | hz
        · subst hz; linarith
        · have := hy z hz; linarith

theorem sortByDesc_sorted {α : Type} (key : α → ℚ) (l : List α) :
    (sortByDesc key l).Sorted (fun a b => key b ≤ key a) := by
  induction l with
  | nil => simp [sortByDesc]
  | cons x xs ih => exact insertByDesc_sorted key x ih

theorem insertByDesc_filter_eq {α : Type} (key : α → ℚ) (x : α) (l : List α) (v : ℚ)
    (hx : key x = v) :
    (insertByDesc key x l).filter (fun a => decide (key a = v))
      = x :: l.filter (fun a => decide (key a = v)) := by
  induction l with
  | nil => simp [insertByDesc, List.filter, hx]
  | cons y ys ih =>
      simp only [insertByDesc]
      split_ifs with h
      · have hy : key y ≠ v := by
          intro hyv
          rw [hx, ← hyv] at h
          exact lt_irrefl _ h
        rw [List.filter_cons_of_neg (by simpa using hy), ih,
          List.filter_cons_of_neg (by simpa using hy)]
      · rw [List.filter_cons_of_pos (by simpa using hx)]

theorem insertByDesc_filter_ne {α : Type} (key : α → ℚ) (x : α) (l : List α) (v : ℚ)
    (hx : key x ≠ v) :
    (insertByDesc key x l).filter (fun a => decide (key a = v))
      = l.filter (fun a => decide (key a = v)) := by
  induction l with
  | nil => simp [insertByDesc, List.filter, hx]
  | cons y ys ih =>
      simp only [insertByDesc]
      split_ifs with h
      · by_cases hy : key y = v
        · rw [List.filter_cons_of_pos (by simpa using hy),
            List.filter_cons_of_pos (by simpa using hy), ih]
        · rw [List.filter_cons_of_neg (by simpa using hy),
            List.filter_cons_of_neg (by simpa using hy), ih]
      · rw [List.filter_cons_of_neg (by simpa using hx)]

/-- Stability: for every key value, the sorted list restricted to that key
value is the original list restricted to it (equal keys keep their
original relative order). -/
theorem sortByDesc_stable {α : Type} (key : α → ℚ) (l : List α) (v : ℚ) :
    (sortByDesc key l).filter (fun a => decide (key a = v))
      = l.filter (fun a => decide (key a = v)) := by
  induction l with
  | nil => rfl
  | cons x xs ih =>
      simp only [sortByDesc]
      by_cases hx : key x = v
      · rw [insertByDesc_filter_eq key x _ v hx, ih,
          List.filter_cons_of_pos (by simpa using hx)]
      · rw [insertByDesc_filter_ne key x _ v hx, ih,
          List.filter_cons_of_neg (by simpa using hx)]

theorem generate_all_combinations_nil (sch : Option String) :
    generate_all_combinations [] sch = [] := rfl

theorem rawSuggestions_nil (bid : Option String) (st : Option ClothingStyle)
    (sch : Option String) : rawSuggestions [] bid st sch = [] := by
  cases st <;> cases bid <;> try rfl
  all_goals
    simp only [rawSuggestions, List.filter_nil, optStrTruthy]
  all_goals
    split_ifs <;> rfl

/-! ### Claim C3: ranking and truncation -/

/-- C3: `generate_outfit_suggestions` returns exactly the first
`max_suggestions` elements of the stably descending-sorted candidate
list: the returned list is the `take` of `sortByDesc` applied to the raw
candidates, that sorted list is descending in `total_score`, is a
permutation of the raw candidates, keeps candidates of equal
`total_score` in their original generation order, and the result has
length at most `max_suggestions`. -/
theorem generate_sorted_take (all_items : List ClothingItem)
    (bid : Option String) (st : Option ClothingStyle) (sch : Option String)
    (k : ℕ) :
    generate_outfit_suggestions all_items bid st sch k
      = (sortByDesc (·.total_score) (rawSuggestions all_items bid st sch)).take k
    ∧ (sortByDesc (·.total_score) (rawSuggestions all_items bid st sch)).Sorted
        (fun a b => b.total_score ≤ a.total_score)
    ∧ (sortByDesc (·.total_score) (rawSuggestions all_items bid st sch)).Perm
        (rawSuggestions all_items bid st sch)
    ∧ (∀ v : ℚ, (sortByDesc (·.total_score)
          (rawSuggestions all_items bid st sch)).filter
            (fun s => decide (s.total_score = v))
        = (rawSuggestions all_items bid st sch).filter
            (fun s => decide (s.total_score = v)))
    ∧ (generate_outfit_suggestions all_items bid st sch k).length ≤ k := by
  refine ⟨?_, sortByDesc_sorted _ _, sortByDesc_perm _ _, sortByDesc_stable _ _, ?_⟩
  · simp only [generate_outfit_suggestions]
    split_ifs with h
    · subst h; rw [rawSuggestions_nil]; simp [sortByDesc]
    · rfl
  · simp only [generate_outfit_suggestions]
    split_ifs with h
    · simp
    · rw [List.length_take]
      exact min_le_left _ _

/-! ### Claim C5: the style compatibility score -/

/-- `styleScore` as claim C5 words it: 100 when all items share one
style, otherwise 50 plus the adjacent-pair adjustments (+10 identical,
+5 for a pair of the fixed symmetric table, −10 otherwise), clamped to
`[0,100]`. -/
def styleScoreSpec (items : List ClothingItem) : ℚ :=
  match items with
  | [] => 0
  | first :: rest =>
      if (first :: rest).all (fun j => decide (j.style = first.style)) then 100
      else max 0 (min 100 (50 + adjacentStyleWalk ((first :: rest).map (·.style))))

/-- C5: on every non-empty garment list `check_style_compatibility`
computes the claimed function (100 if all styles agree, else the clamped
adjacent-pair walk from 50), and for two garments styled casual and
streetwear it returns 55. -/
theorem style_score_spec :
    (∀ items : List ClothingItem, items ≠ [] →
        check_style_compatibility items = styleScoreSpec items)
    ∧ ∀ i1 i2 : ClothingItem, i1.style = ClothingStyle.casual →
        i2.style = ClothingStyle.streetwear →
        check_style_compatibility [i1, i2] = 55 := by
  constructor
  · intro items hne
    match items with
    | first :: rest =>
        simp [check_style_compatibility, styleScoreSpec, List.all_cons]
  · intro i1 i2 h1 h2
    simp [check_style_compatibility, adjacentStyleWalk, h1, h2, compatible_pairs]
    norm_num

/-- A minimal garment record used to instantiate universally quantified
theorems at concrete inputs. -/
def sampleItem (cat : ClothingCategory) (st : ClothingStyle) : ClothingItem :=
  { id := "", name := "", category := cat, style := st
    dominant_colors := [], tags := [] }

theorem style_score_spec_witness :
    check_style_compatibility
        [sampleItem ClothingCategory.top ClothingStyle.casual,
         sampleItem ClothingCategory.top ClothingStyle.streetwear] = 55
    ∧ check_style_compatibility [sampleItem ClothingCategory.top ClothingStyle.casual]
        = styleScoreSpec [sampleItem ClothingCategory.top ClothingStyle.casual] :=
  ⟨style_score_spec.2 _ _ rfl rfl,
   style_score_spec.1 _ (List.cons_ne_nil _ _)⟩

/-! ### Integrality of the two scores, and rounding -/

theorem pairAdjust_isInt (d : ℚ) : ∃ n : ℤ, pairAdjust d = n := by
  simp only [pairAdjust]
  split_ifs
  · exact ⟨10, by norm_num⟩
  · exact ⟨5, by norm_num⟩
  · exact ⟨8, by norm_num⟩
  · exact ⟨-15, by norm_num⟩
  · exact ⟨0, by norm_num⟩

theorem sum_pairAdjust_isInt (dOf : ℚ → ℚ → ℚ) (a : ℚ) (t : List ℚ) :
    ∃ n : ℤ, (t.map (fun h2 => pairAdjust (dOf a h2))).sum = n := by
  induction t with
  | nil => exact ⟨0, by simp⟩
  | cons b t ih =>
      obtain ⟨n, hn⟩ := ih
      obtain ⟨m, hm⟩ := pairAdjust_isInt (dOf a b)
      exact ⟨m + n, by simp [hm, hn]⟩

theorem pairScores_isInt (dOf : ℚ → ℚ → ℚ) (l : List ℚ) :
    ∃ n : ℤ, pairScores dOf l = n := by
  induction l with
  | nil => exact ⟨0, rfl⟩
  | cons a t ih =>
      obtain ⟨n, hn⟩ := ih
      obtain ⟨m, hm⟩ := sum_pairAdjust_isInt dOf a t
      exact ⟨m + n, by simp [pairScores, hm, hn]⟩

theorem harmony_isInt (colors : List RGB) :
    ∃ n : ℤ, calculate_harmony_score colors = n := by
  simp only [calculate_harmony_score]
  split_ifs
  · exact ⟨100, by norm_num⟩
  · obtain ⟨n, hn⟩ := pairScores_isInt hueDiff (colors.map (fun c => (rgb_to_hsl c).1))
    refine ⟨max 0 (min 100 (100 + n)), ?_⟩
    rw [hn]
    push_cast
    rfl

theorem outfit_harmony_isInt (items : List ClothingItem) :
    ∃ n : ℤ, calculate_outfit_harmony items = n := by
  simp only [calculate_outfit_harmony]
  split_ifs
  · exact ⟨100, by norm_num⟩
  · exact harmony_isInt _

theorem adjacentStyleWalk_isInt (styles : List ClothingStyle) :
    ∃ n : ℤ, adjacentStyleWalk styles = n := by
  induction styles with
  | nil => exact ⟨0, rfl⟩
  | cons s1 tail ih =>
      match tail, ih with
      | [], _ => exact ⟨0, rfl⟩
      | s2 :: rest, ih =>
          obtain ⟨n, hn⟩ := ih
          simp only [adjacentStyleWalk]
          split_ifs
          · exact ⟨10 + n, by rw [hn]; push_cast; ring⟩
          · exact ⟨5 + n, by rw [hn]; push_cast; ring⟩
          · exact ⟨-10 + n, by rw [hn]; push_cast; ring⟩

theorem style_isInt (items : List ClothingItem) :
    ∃ n : ℤ, check_style_compatibility items = n := by
  match items with
  | [] => exact ⟨0, rfl⟩
  | first :: rest =>
      simp only [check_style_compatibility]
      split_ifs
      · exact ⟨100, by norm_num⟩
      · obtain ⟨n, hn⟩ := adjacentStyleWalk_isInt ((first :: rest).map (·.style))
        refine ⟨max 0 (min 100 (50 + n)), ?_⟩
        rw [hn]
        push_cast
        rfl

theorem roundHalfEven_intCast (m : ℤ) : roundHalfEven (m : ℚ) = m := by
  simp [roundHalfEven, Int.fract_intCast]

theorem pyRound2_intCast (m : ℤ) : pyRound2 (m : ℚ) = m := by
  have h : ((m : ℚ) * 100) = ((m * 100 : ℤ) : ℚ) := by push_cast; ring
  rw [pyRound2, h, roundHalfEven_intCast]
  push_cast
  ring

/-! ### Every raw suggestion is a `mkSuggestion` -/

theorem mem_generate_from_base {sg : Suggestion} {base : ClothingItem}
    {all : List ClothingItem} {sch : Option String}
    (h : sg ∈ generate_from_base base all sch) :
    ∃ its pat, sg = mkSuggestion its pat := by
  simp only [generate_from_base, List.mem_flatten, List.mem_map] at h
  obtain ⟨l, ⟨pattern, hpat, rfl⟩, hmem⟩ := h
  split at hmem
  · obtain ⟨combo, _, rfl⟩ := List.mem_map.mp hmem
    exact ⟨base :: combo, pattern, rfl⟩
  · simp at hmem

theorem mem_generate_all_combinations {sg : Suggestion}
    {all : List ClothingItem} {sch : Option String}
    (h : sg ∈ generate_all_combinations all sch) :
    ∃ its pat, sg = mkSuggestion its pat := by
  simp only [generate_all_combinations, List.mem_flatten, List.mem_map] at h
  obtain ⟨l, ⟨pattern, hpat, rfl⟩, hmem⟩ := h
  split at hmem
  · obtain ⟨combo, _, rfl⟩ := List.mem_map.mp hmem
    exact ⟨combo, pattern, rfl⟩
  · simp at hmem

theorem mem_rawSuggestions {sg : Suggestion} {all : List ClothingItem}
    {bid : Option String} {st : Option ClothingStyle} {sch : Option String}
    (h : sg ∈ rawSuggestions all bid st sch) :
    ∃ its pat, sg = mkSuggestion its pat := by
  simp only [rawSuggestions] at h
  split at h
  · split at h
    · exact mem_generate_from_base h
    · simp at h
  · exact mem_generate_all_combinations h

/-! ### Claim C4: the total-score formula -/

/-- C4: in both generation modes, every suggestion returned by
`generate_outfit_suggestions` has
`total_score = round2(0.6 * color_harmony_score + 0.4 * style score)`. -/
theorem total_score_formula (all_items : List ClothingItem) (bid : Option String)
    (st : Option ClothingStyle) (sch : Option String) (k : ℕ) (sg : Suggestion)
    (h : sg ∈ generate_outfit_suggestions all_items bid st sch k) :
    sg.total_score
      = pyRound2 ((6/10) * sg.color_harmony_score
          + (4/10) * sg.style_compatibility_score) := by
  simp only [generate_outfit_suggestions] at h
  split at h
  · simp at h
  · have hraw : sg ∈ rawSuggestions all_items bid st sch :=
      (sortByDesc_perm _ _).mem_iff.mp (List.take_subset _ _ h)
    obtain ⟨its, pat, rfl⟩ := mem_rawSuggestions hraw
    obtain ⟨nh, hnh⟩ := outfit_harmony_isInt its
    obtain ⟨ns, hns⟩ := style_isInt its
    simp only [mkSuggestion]
    rw [hnh, hns, pyRound2_intCast, pyRound2_intCast]
    congr 1
    ring

theorem total_score_formula_witness :
    (mkSuggestion [sampleItem ClothingCategory.dress ClothingStyle.casual]
        [ClothingCategory.dress]).total_score
      = pyRound2 ((6/10) * (mkSuggestion [sampleItem ClothingCategory.dress ClothingStyle.casual]
            [ClothingCategory.dress]).color_harmony_score
          + (4/10) * (mkSuggestion [sampleItem ClothingCategory.dress ClothingStyle.casual]
            [ClothingCategory.dress]).style_compatibility_score) := by
  have hmem : mkSuggestion [sampleItem ClothingCategory.dress ClothingStyle.casual]
        [ClothingCategory.dress]
      ∈ generate_outfit_suggestions [sampleItem ClothingCategory.dress ClothingStyle.casual]
          none none none 5 := by
    exact List.mem_cons_self _ _
  exact total_score_formula _ none none none 5 _ hmem

/-! ### Claim C9: empty filters fall back instead of failing -/

/-- C9: (a) when the style filter matches nothing, generation proceeds
exactly as if no style had been requested; (b) when base-item-mode
narrowing of a category's options by `colors_match` yields the empty
list, the unnarrowed option list is used. -/
theorem empty_filter_fallbacks :
    (∀ (all_items : List ClothingItem) (bid : Option String)
        (st : ClothingStyle) (sch : Option String) (k : ℕ),
        all_items.filter (fun i => decide (i.style = st)) = [] →
        generate_outfit_suggestions all_items bid (some st) sch k
          = generate_outfit_suggestions all_items bid none sch k)
    ∧ ∀ (sch : String) (brgb : RGB) (options : List ClothingItem),
        options.filter (fun item =>
          match get_dominant_rgb item with
          | some irgb => colors_match brgb irgb sch 30
          | none => false) = [] →
        narrowOptions (some sch) (some brgb) options = options := by
  constructor
  · intro all_items bid st sch k hempty
    simp only [generate_outfit_suggestions, rawSuggestions, hempty, if_pos]
  · intro sch brgb options hempty
    simp only [narrowOptions, hempty, if_pos]
    split_ifs <;> rfl

theorem empty_filter_fallbacks_witness :
    (generate_outfit_suggestions [sampleItem ClothingCategory.dress ClothingStyle.casual]
        none (some ClothingStyle.formal) none 5
      = generate_outfit_suggestions [sampleItem ClothingCategory.dress ClothingStyle.casual]
        none none none 5)
    ∧ narrowOptions (some "complementary") (some ((0, 0, 0) : RGB))
        [sampleItem ClothingCategory.top ClothingStyle.casual]
      = [sampleItem ClothingCategory.top ClothingStyle.casual] :=
  ⟨empty_filter_fallbacks.1 _ none ClothingStyle.formal none 5 rfl,
   empty_filter_fallbacks.2 "complementary" (0, 0, 0) _ rfl⟩

/-! ### Claim C8: the open-mode color-scheme gate -/

/-- The gate as claim C8 words it: compare the dominant colors of the
*first two items* of the candidate tuple (kept when either of those two
items has no dominant color, since then there are no "two colors" to
test). -/
def openModeGateFirstTwoItems (color_scheme : Option String)
    (outfit_items : List ClothingItem) : Bool :=
  match color_scheme with
  | none => true
  | some sch =>
      if sch.isEmpty then true
      else
        match outfit_items with
        | i1 :: i2 :: _ =>
            match get_dominant_rgb i1, get_dominant_rgb i2 with
            | some c1, some c2 => colors_match c1 c2 sch 30
            | _, _ => true
        | _ => true

/-- Open-mode generation with the claim's first-two-items gate. -/
def generate_all_combinations_firstTwoItems (all_items : List ClothingItem)
    (color_scheme : Option String) : List Suggestion :=
  (OUTFIT_COMBINATIONS.map (fun pattern =>
    if pattern.all (fun cat => decide (byCat all_items cat ≠ [])) then
      ((listProd (pattern.map (byCat all_items))).filter
          (fun combo => openModeGateFirstTwoItems color_scheme combo)).map
        (fun combo => mkSuggestion combo pattern)
    else [])).flatten

/-- The gate as the amended claim words it: the first two *available*
dominant colors in tuple order (items without a dominant color are
skipped); with fewer than two available colors the tuple is kept; no
color beyond the first two available ones is inspected. -/
def openModeGateFirstTwoAvailable (color_scheme : Option String)
    (outfit_items : List ClothingItem) : Bool :=
  match color_scheme with
  | none => true
  | some sch =>
      if sch.isEmpty then true
      else
        match (outfit_items.filterMap get_dominant_rgb).take 2 with
        | [c1, c2] => colors_match c1 c2 sch 30
        | _ => true

/-- Open-mode generation with the amended gate. -/
def generate_all_combinations_firstTwoAvailable (all_items : List ClothingItem)
    (color_scheme : Option String) : List Suggestion :=
  (OUTFIT_COMBINATIONS.map (fun pattern =>
    if pattern.all (fun cat => decide (byCat all_items cat ≠ [])) then
      ((listProd (pattern.map (byCat all_items))).filter
          (fun combo => openModeGateFirstTwoAvailable color_scheme combo)).map
        (fun combo => mkSuggestion combo pattern)
    else [])).flatten

/-- A top garment with no extracted colors. -/
def c8Top : ClothingItem :=
  { id := "t", name := "", category := ClothingCategory.top
    style := ClothingStyle.casual, dominant_colors := [], tags := [] }

/-- A bottom garment whose dominant color is red (hue 0). -/
def c8Bottom : ClothingItem :=
  { id := "b", name := "", category := ClothingCategory.bottom
    style := ClothingStyle.casual
    dominant_colors := [{ hex := "#c80a0a", rgb := (200, 10, 10), name := "red", percentage := 100 }]
    tags := [] }

/-- A shoes garment whose dominant color is green (hue 120). -/
def c8ShoesGreen : ClothingItem :=
  { id := "s", name := "", category := ClothingCategory.shoes
    style := ClothingStyle.casual
    dominant_colors := [{ hex := "#0ac80a", rgb := (10, 200, 10), name := "green", percentage := 100 }]
    tags := [] }

/-- A shoes garment whose dominant color is the same red as the bottom. -/
def c8ShoesRed : ClothingItem :=
  { id := "s", name := "", category := ClothingCategory.shoes
    style := ClothingStyle.casual
    dominant_colors := [{ hex := "#c80a0a", rgb := (200, 10, 10), name := "red", percentage := 100 }]
    tags := [] }

theorem hue_red : (rgb_to_hsl ((200, 10, 10) : RGB)).1 = 0 := by
  norm_num [rgb_to_hsl, rgb_to_hls, Int.fract]

theorem hue_green : (rgb_to_hsl ((10, 200, 10) : RGB)).1 = 120 := by
  norm_num [rgb_to_hsl, rgb_to_hls, Int.fract]

theorem cm_red_green_analogous :
    colors_match (200, 10, 10) (10, 200, 10) "analogous" 30 = false := by
  have hs : ¬("analogous" : String) = "complementary" := by simp
  simp only [colors_match, hue_red, hue_green, hueDiff, if_neg hs]
  norm_num

theorem cm_red_red_analogous :
    colors_match (200, 10, 10) (200, 10, 10) "analogous" 30 = true := by
  have hs : ¬("analogous" : String) = "complementary" := by simp
  simp only [colors_match, hue_red, hueDiff, if_neg hs]
  norm_num

theorem len_gen_green :
    (generate_all_combinations [c8Top, c8Bottom, c8ShoesGreen] (some "analogous")).length
      = 1 := by
  have hempty : ("analogous").isEmpty = false := rfl
  simp [generate_all_combinations, OUTFIT_COMBINATIONS, byCat, listProd,
    openModeGate, c8Top, c8Bottom, c8ShoesGreen, get_dominant_rgb, hempty,
    cm_red_green_analogous]

theorem len_gen_red :
    (generate_all_combinations [c8Top, c8Bottom, c8ShoesRed] (some "analogous")).length
      = 2 := by
  have hempty : ("analogous").isEmpty = false := rfl
  simp [generate_all_combinations, OUTFIT_COMBINATIONS, byCat, listProd,
    openModeGate, c8Top, c8Bottom, c8ShoesRed, get_dominant_rgb, hempty,
    cm_red_red_analogous]

theorem len_gen_firstTwoItems_green :
    (generate_all_combinations_firstTwoItems [c8Top, c8Bottom, c8ShoesGreen]
      (some "analogous")).length = 2 := by
  have hempty : ("analogous").isEmpty = false := rfl
  simp [generate_all_combinations_firstTwoItems, OUTFIT_COMBINATIONS, byCat, listProd,
    openModeGateFirstTwoItems, c8Top, c8Bottom, c8ShoesGreen, get_dominant_rgb, hempty]

/-- C8 counterexample: with a colorless top, a red bottom and green
shoes under the `analogous` scheme, the code's open-mode gate uses the
bottom's and the shoes' colors (the first two *available* colors), not
the colors of the first two items: generation differs from the claim's
first-two-items reading, and swapping only the third item's color flips
the tuple's fate even though the first two items are unchanged. -/
theorem open_mode_gate_counterexample :
    generate_all_combinations [c8Top, c8Bottom, c8ShoesGreen] (some "analogous")
      ≠ generate_all_combinations_firstTwoItems [c8Top, c8Bottom, c8ShoesGreen] (some "analogous")
    ∧ openModeGate (some "analogous") [c8Top, c8Bottom, c8ShoesGreen] = false
    ∧ openModeGateFirstTwoItems (some "analogous") [c8Top, c8Bottom, c8ShoesGreen] = true
    ∧ (generate_all_combinations [c8Top, c8Bottom, c8ShoesGreen] (some "analogous")).length = 1
    ∧ (generate_all_combinations [c8Top, c8Bottom, c8ShoesRed] (some "analogous")).length = 2 := by
  refine ⟨?_, ?_, rfl, len_gen_green, len_gen_red⟩
  · intro heq
    have h1 := len_gen_green
    rw [heq, len_gen_firstTwoItems_green] at h1
    exact absurd h1 (by norm_num)
  · have hempty : ("analogous").isEmpty = false := rfl
    simp [openModeGate, c8Top, c8Bottom, c8ShoesGreen, get_dominant_rgb, hempty,
      cm_red_green_analogous]

theorem openModeGate_eq_firstTwoAvailable (sch : Option String)
    (items : List ClothingItem) :
    openModeGate sch items = openModeGateFirstTwoAvailable sch items := by
  cases sch with
  | none => rfl
  | some s =>
      simp only [openModeGate, openModeGateFirstTwoAvailable]
      split_ifs with h
      · rfl
      · cases hfm : items.filterMap get_dominant_rgb with
        | nil => rfl
        | cons c1 tail =>
            cases tail with
            | nil => rfl
            | cons c2 rest => rfl

/-- C8 amended: in open mode the code's gate compares the first two
*available* dominant colors (items without a dominant color are
skipped), keeps the tuple when fewer than two colors are available, and
inspects no color beyond those first two. -/
theorem open_mode_gate_amended (all_items : List ClothingItem)
    (color_scheme : Option String) :
    generate_all_combinations all_items color_scheme
      = generate_all_combinations_firstTwoAvailable all_items color_scheme := by
  simp only [generate_all_combinations, generate_all_combinations_firstTwoAvailable]
  congr 1
  apply List.map_congr_left
  intro pattern _
  split_ifs with h
  · congr 1
    apply List.filter_congr
    intro combo _
    rw [openModeGate_eq_firstTwoAvailable]
  · rfl

/-! ### `ColorExtractionService` (color_service.py)

The AI/clustering primitives (`rembg`, `ColorThief`) are external
libraries, not repository code, so the embedding takes the surviving
pixel list and the clustered palette as inputs and models everything the
repository does afterwards: the background post-filter, percentage
assignment, naming, ordering and truncation. -/

/-- `_is_background_color` with its default threshold 240. -/
def is_background_color (rgb : RGB) : Bool :=
  if rgb.1 > 240 ∧ rgb.2.1 > 240 ∧ rgb.2.2 > 240 then true
  else if rgb.1 < 15 ∧ rgb.2.1 < 15 ∧ rgb.2.2 < 15 then true
  else if rgb.1 > 230 ∧ rgb.2.1 > 230 ∧ rgb.2.2 > 230 then true
  else false

/-- The square of `color_distance` (the redmean-weighted distance).
`extract_colors` uses distances only inside strict comparisons, and
squaring is strictly monotone on nonnegative values, so
nearest-palette-entry selection is unchanged by comparing squares
instead of the square roots the source computes. -/
def color_distance_sq (c1 c2 : RGB) : ℚ :=
  let rmean := ((c1.1 : ℚ) + (c2.1 : ℚ)) / 2
  (2 + rmean / 256) * ((c1.1 : ℚ) - (c2.1 : ℚ)) ^ 2
    + 4 * ((c1.2.1 : ℚ) - (c2.2.1 : ℚ)) ^ 2
    + (2 + (255 - rmean) / 256) * ((c1.2.2 : ℚ) - (c2.2.2 : ℚ)) ^ 2

/-- The `min_dist`/`closest_idx` scan of `extract_colors`
(`min_dist` starts at infinity, strict improvement updates, first
minimum wins). -/
def closestIdxAux (pixel : RGB) : List RGB → ℕ → Option ℚ → ℕ → ℕ
  | [], _, _, best => best
  | p :: ps, idx, cur, best =>
      let d := color_distance_sq pixel p
      match cur with
      | none => closestIdxAux pixel ps (idx + 1) (some d) idx
      | some m =>
          if d < m then closestIdxAux pixel ps (idx + 1) (some d) idx
          else closestIdxAux pixel ps (idx + 1) (some m) best

/-- Index of the palette entry nearest to `pixel`. -/
def closestIdx (pixel : RGB) (palette : List RGB) : ℕ :=
  closestIdxAux pixel palette 0 none 0

/-- One lowercase hex digit. -/
def hexDigitChar (n : ℕ) : Char :=
  if n < 10 then Char.ofNat (48 + n) else Char.ofNat (87 + n)

/-- `"{:02x}".format(n)` for a byte value. -/
def byteToHex (n : ℤ) : String :=
  String.mk [hexDigitChar (n.toNat / 16 % 16), hexDigitChar (n.toNat % 16)]

/-- `rgb_to_hex`. -/
def rgb_to_hex (rgb : RGB) : String :=
  "#" ++ byteToHex rgb.1 ++ byteToHex rgb.2.1 ++ byteToHex rgb.2.2

/-- The post-clustering stage of `extract_colors`: background-filter the
palette (falling back to the unfiltered palette when everything is
filtered), count each surviving pixel toward its nearest palette entry,
build `ColorInfo` records with rounded percentages, sort descending by
percentage and truncate to `num_colors`.  `nameOf` abstracts
`get_color_name` (whose nearest-name table lookup goes through the
external `webcolors` package). -/
def extract_colors_post (nameOf : RGB → String) (valid_pixels : List RGB)
    (palette : List RGB) (num_colors : ℕ) : List ColorInfo :=
  let filtered := palette.filter (fun c => !(is_background_color c))
  let filtered_palette := if filtered = [] then palette else filtered
  let total_pixels : ℚ := if valid_pixels = [] then 1 else valid_pixels.length
  let colors := filtered_palette.enum.map (fun e =>
    let count : ℕ := valid_pixels.countP (fun px => decide (closestIdx px filtered_palette = e.1))
    { hex := rgb_to_hex e.2
      rgb := e.2
      name := nameOf e.2
      percentage := pyRound2 (((count : ℚ) / total_pixels) * 100) : ColorInfo })
  (sortByDesc (·.percentage) colors).take num_colors

/-! ### Claim C10: extraction output invariants -/

theorem roundHalfEven_nonneg {x : ℚ} (h : 0 ≤ x) : 0 ≤ roundHalfEven x := by
  have hf : (0 : ℤ) ≤ ⌊x⌋ := Int.floor_nonneg.mpr h
  simp only [roundHalfEven]
  split_ifs <;> omega

theorem roundHalfEven_le {x : ℚ} {B : ℤ} (h : x ≤ B) : roundHalfEven x ≤ B := by
  have hf : ⌊x⌋ ≤ B := by
    have := Int.floor_le_floor h
    rwa [Int.floor_intCast] at this
  simp only [roundHalfEven]
  split_ifs with h1 h2 h3
  · exact hf
  · have hne : ⌊x⌋ ≠ B := by
      intro he
      rw [Int.fract] at h1
      have hfx : (⌊x⌋ : ℚ) = B := by exact_mod_cast he
      have : x - (⌊x⌋ : ℚ) ≤ 0 := by rw [hfx]; linarith
      linarith
    omega
  · exact hf
  · have hne : ⌊x⌋ ≠ B := by
      intro he
      rw [Int.fract] at h1
      have hfx : (⌊x⌋ : ℚ) = B := by exact_mod_cast he
      have : x - (⌊x⌋ : ℚ) ≤ 0 := by rw [hfx]; linarith
      linarith
    omega

theorem pyRound2_nonneg {x : ℚ} (h : 0 ≤ x) : 0 ≤ pyRound2 x := by
  have := roundHalfEven_nonneg (x := x * 100) (by positivity)
  simp only [pyRound2]
  positivity

theorem pyRound2_le_100 {x : ℚ} (h : x ≤ 100) : pyRound2 x ≤ 100 := by
  have h1 : x * 100 ≤ ((10000 : ℤ) : ℚ) := by push_cast; linarith
  have h2 := roundHalfEven_le h1
  simp only [pyRound2]
  rw [div_le_iff₀ (by norm_num)]
  calc ((roundHalfEven (x * 100) : ℤ) : ℚ) ≤ ((10000 : ℤ) : ℚ) := by exact_mod_cast h2
    _ = 100 * 100 := by norm_num

/-- C10: for every naming function, surviving-pixel list, clustered
palette and requested count, the extraction output is sorted descending
by percentage, has length at most the requested count, and every
percentage lies in `[0, 100]`. -/
theorem extract_colors_invariants (nameOf : RGB → String)
    (valid_pixels palette : List RGB) (num_colors : ℕ) :
    (extract_colors_post nameOf valid_pixels palette num_colors).Sorted
        (fun a b => b.percentage ≤ a.percentage)
    ∧ (extract_colors_post nameOf valid_pixels palette num_colors).length ≤ num_colors
    ∧ ∀ c ∈ extract_colors_post nameOf valid_pixels palette num_colors,
        0 ≤ c.percentage ∧ c.percentage ≤ 100 := by
  refine ⟨?_, ?_, ?_⟩
  · exact List.Pairwise.sublist (List.take_sublist _ _) (sortByDesc_sorted _ _)
  · simp only [extract_colors_post]
    rw [List.length_take]
    exact min_le_left _ _
  · intro c hc
    simp only [extract_colors_post] at hc
    have hc1 := List.take_subset _ _ hc
    have hc2 := (sortByDesc_perm _ _).mem_iff.mp hc1
    obtain ⟨e, _, rfl⟩ := List.mem_map.mp hc2
    simp only
    set total : ℚ := if valid_pixels = [] then 1 else valid_pixels.length with htotal
    set cnt : ℕ := valid_pixels.countP
      (fun px => decide (closestIdx px
        (if palette.filter (fun c => !(is_background_color c)) = []
         then palette
         else palette.filter (fun c => !(is_background_color c))) = e.1)) with hcnt
    have harg : 0 ≤ ((cnt : ℚ) / total) * 100 ∧ ((cnt : ℚ) / total) * 100 ≤ 100 := by
      by_cases hv : valid_pixels = []
      · subst hv
        have hc0 : cnt = 0 := by rw [hcnt]; simp
        have ht1 : total = 1 := by rw [htotal]; simp
        rw [hc0, ht1]
        norm_num
      · have htpos : (0 : ℚ) < total := by
          rw [htotal, if_neg hv]
          exact_mod_cast List.length_pos.mpr hv
        have hratio0 : 0 ≤ (cnt : ℚ) / total := div_nonneg (by positivity) htpos.le
        have hratio1 : (cnt : ℚ) / total ≤ 1 := by
          rw [div_le_one htpos, htotal, if_neg hv]
          exact_mod_cast List.countP_le_length _
        constructor
        · nlinarith
        · nlinarith
    exact ⟨pyRound2_nonneg harg.1, pyRound2_le_100 harg.2⟩

theorem extract_colors_invariants_witness :
    0 ≤ (ColorInfo.mk (rgb_to_hex (200, 10, 10)) (200, 10, 10) "x"
        (pyRound2 (((1 : ℚ) / 1) * 100))).percentage := by
  have h := (extract_colors_invariants (fun _ => "x") [(200, 10, 10)] [(200, 10, 10)] 1).2.2
  exact (h _ (by
    simp [extract_colors_post, sortByDesc, insertByDesc, closestIdx, closestIdxAux,
      is_background_color, List.countP, List.countP.go, List.enum])).1

/-! ### Claim C2: evaluation lemmas for the `_v` trapezoid -/

theorem hlsV_fract (m1 m2 u : ℚ) : hlsV m1 m2 (Int.fract u) = hlsV m1 m2 u := by
  simp only [hlsV, Int.fract_fract]

theorem hlsV_fract_add (m1 m2 u c : ℚ) :
    hlsV m1 m2 (Int.fract u + c) = hlsV m1 m2 (u + c) := by
  have hfr : Int.fract (Int.fract u + c) = Int.fract (u + c) := by
    rw [show Int.fract u + c = (u + c) - (⌊u⌋ : ℚ) by rw [Int.fract]; ring]
    exact Int.fract_sub_int _ _
  simp only [hlsV, hfr]

theorem hlsV_add_one (m1 m2 u : ℚ) : hlsV m1 m2 (u + 1) = hlsV m1 m2 u := by
  simp only [hlsV, Int.fract_add_one]

/-- Ramp-up sector: at `t/6` the profile interpolates from `m1` to `m2`. -/
theorem hlsV_ramp_up (m1 m2 t : ℚ) (ht0 : 0 ≤ t) (ht1 : t ≤ 1) :
    hlsV m1 m2 (t / 6) = m1 + (m2 - m1) * t := by
  simp only [hlsV]
  rw [Int.fract_eq_self.mpr ⟨by linarith, by linarith⟩]
  split_ifs with h1 h2 h3
  · ring
  · have ht : t = 1 := le_antisymm ht1 (by linarith)
    rw [ht]; ring
  · linarith
  · linarith

/-- High plateau: at `t/6 + 1/3` the profile is `m2`. -/
theorem hlsV_plateau_hi (m1 m2 t : ℚ) (ht0 : 0 ≤ t) (ht1 : t ≤ 1) :
    hlsV m1 m2 (t / 6 + 1 / 3) = m2 := by
  simp only [hlsV]
  rw [Int.fract_eq_self.mpr ⟨by linarith, by linarith⟩]
  split_ifs with h1 h2 h3
  · linarith
  · rfl
  · have ht : t = 1 := le_antisymm ht1 (by linarith)
    rw [ht]; ring
  · linarith

/-- Low plateau, reached from below: at `t/6 - 1/3` the profile is `m1`. -/
theorem hlsV_plateau_lo (m1 m2 t : ℚ) (ht0 : 0 ≤ t) (ht1 : t ≤ 1) :
    hlsV m1 m2 (t / 6 - 1 / 3) = m1 := by
  have hfr : Int.fract (t / 6 - 1 / 3) = t / 6 + 2 / 3 := by
    calc Int.fract (t / 6 - 1 / 3) = Int.fract (t / 6 - 1 / 3 + 1) := (Int.fract_add_one _).symm
      _ = t / 6 + 2 / 3 := by
          rw [show t / 6 - 1 / 3 + 1 = t / 6 + 2 / 3 by ring]
          exact Int.fract_eq_self.mpr ⟨by linarith, by linarith⟩
  simp only [hlsV, hfr]
  split_ifs with h1 h2 h3
  · linarith
  · linarith
  · linarith
  · rfl

/-- Low plateau: at `t/6 + 2/3` the profile is `m1`. -/
theorem hlsV_plateau_lo2 (m1 m2 t : ℚ) (ht0 : 0 ≤ t) (ht1 : t ≤ 1) :
    hlsV m1 m2 (t / 6 + 2 / 3) = m1 := by
  simp only [hlsV]
  rw [Int.fract_eq_self.mpr ⟨by linarith, by linarith⟩]
  split_ifs with h1 h2 h3
  · linarith
  · linarith
  · linarith
  · rfl

/-- High plateau, reached from the left: at `1/3 - t/6` the profile is `m2`. -/
theorem hlsV_plateau_hi_neg (m1 m2 t : ℚ) (ht0 : 0 ≤ t) (ht1 : t ≤ 1) :
    hlsV m1 m2 (1 / 3 - t / 6) = m2 := by
  simp only [hlsV]
  rw [Int.fract_eq_self.mpr ⟨by linarith, by linarith⟩]
  split_ifs with h1 h2 h3
  · linarith
  · rfl
  · linarith
  · linarith

/-- At `-(t/6)` the profile is `m1`. -/
theorem hlsV_ramp_neg0 (m1 m2 t : ℚ) (ht0 : 0 ≤ t) (ht1 : t ≤ 1) :
    hlsV m1 m2 (-(t / 6)) = m1 := by
  rcases eq_or_lt_of_le ht0 with h0 | h0
  · rw [← h0]
    norm_num [hlsV, Int.fract_zero]
  · have hfr : Int.fract (-(t / 6)) = 1 - t / 6 := by
      calc Int.fract (-(t / 6)) = Int.fract (-(t / 6) + 1) := (Int.fract_add_one _).symm
        _ = 1 - t / 6 := by
            rw [show -(t / 6) + 1 = 1 - t / 6 by ring]
            exact Int.fract_eq_self.mpr ⟨by linarith, by linarith⟩
    simp only [hlsV, hfr]
    split_ifs with h1 h2 h3
    · linarith
    · linarith
    · linarith
    · rfl

/-- Ramp-down sector: at `2/3 - t/6` the profile interpolates from `m1`
back up toward `m2` as `t` grows. -/
theorem hlsV_ramp_down (m1 m2 t : ℚ) (ht0 : 0 ≤ t) (ht1 : t ≤ 1) :
    hlsV m1 m2 (2 / 3 - t / 6) = m1 + (m2 - m1) * t := by
  simp only [hlsV]
  rw [Int.fract_eq_self.mpr ⟨by linarith, by linarith⟩]
  split_ifs with h1 h2 h3
  · linarith
  · have ht : t = 1 := le_antisymm ht1 (by linarith)
    rw [ht]; ring
  · ring
  · have ht : t = 0 := le_antisymm (by linarith) ht0
    rw [ht]; ring

/-- On the `(l, s)` pair that `rgb_to_hls` produces from extreme channel
values `mn < mx`, `hls_to_rgb` recovers `m2 = mx` and `m1 = mn` and
evaluates the trapezoid at the three offsets. -/
theorem hls_to_rgb_eval (mn mx h : ℚ) (h0 : 0 ≤ mn) (hlt : mn < mx) (h1 : mx ≤ 1) :
    hls_to_rgb h ((mx + mn) / 2)
        (if (mx + mn) / 2 ≤ 1 / 2 then (mx - mn) / (mx + mn) else (mx - mn) / (2 - (mx + mn)))
      = (hlsV mn mx (h + 1 / 3), hlsV mn mx h, hlsV mn mx (h - 1 / 3)) := by
  have hsum : 0 < mx + mn := by linarith
  have hsum2 : mx + mn < 2 := by linarith
  have hs : (if (mx + mn) / 2 ≤ 1 / 2
      then (mx - mn) / (mx + mn) else (mx - mn) / (2 - (mx + mn))) ≠ 0 := by
    split_ifs with hl
    · exact div_ne_zero (by linarith) (by linarith)
    · exact div_ne_zero (by linarith) (by linarith)
  simp only [hls_to_rgb, if_neg hs]
  split_ifs with hl
  · have hm2 : (mx + mn) / 2 * (1 + (mx - mn) / (mx + mn)) = mx := by
      field_simp
      ring
    rw [hm2, show 2 * ((mx + mn) / 2) - mx = mn by ring]
  · have hne2 : 2 - (mx + mn) ≠ 0 := ne_of_gt (by linarith)
    have hm2 : (mx + mn) / 2 + (mx - mn) / (2 - (mx + mn))
        - (mx + mn) / 2 * ((mx - mn) / (2 - (mx + mn))) = mx := by
      field_simp [hne2]
      ring
    rw [hm2, show 2 * ((mx + mn) / 2) - mx = mn by ring]

/-- The colorsys round trip is exact over the rationals: `hls_to_rgb`
inverts `rgb_to_hls` on channels in `[0, 1]`. -/
theorem rgb_to_hls_roundtrip (x y z : ℚ)
    (hx0 : 0 ≤ x) (hx1 : x ≤ 1) (hy0 : 0 ≤ y) (hy1 : y ≤ 1)
    (hz0 : 0 ≤ z) (hz1 : z ≤ 1) :
    hls_to_rgb (rgb_to_hls x y z).1 (rgb_to_hls x y z).2.1 (rgb_to_hls x y z).2.2
      = (x, y, z) := by
  have hxm : x ≤ max x (max y z) := le_max_left _ _
  have hym : y ≤ max x (max y z) := le_trans (le_max_left _ _) (le_max_right _ _)
  have hzm : z ≤ max x (max y z) := le_trans (le_max_right _ _) (le_max_right _ _)
  have hmx : min x (min y z) ≤ x := min_le_left _ _
  have hmy : min x (min y z) ≤ y := le_trans (min_le_right _ _) (min_le_left _ _)
  have hmz : min x (min y z) ≤ z := le_trans (min_le_right _ _) (min_le_right _ _)
  by_cases hgray : min x (min y z) = max x (max y z)
  · have hxe : x = max x (max y z) := le_antisymm hxm (hgray ▸ hmx)
    have hye : y = max x (max y z) := le_antisymm hym (hgray ▸ hmy)
    have hze : z = max x (max y z) := le_antisymm hzm (hgray ▸ hmz)
    rw [show y = x from hye.trans hxe.symm, show z = x from hze.trans hxe.symm]
    simp only [rgb_to_hls, min_self, max_self, if_pos rfl, hls_to_rgb]
    norm_num
  · have hlt : min x (min y z) < max x (max y z) :=
      lt_of_le_of_ne (le_trans hmx hxm) hgray
    by_cases hxmax : x = max x (max y z)
    · have hmax : max x (max y z) = x := hxmax.symm
      have hyx : y ≤ x := by rw [hxmax]; exact hym
      have hzx : z ≤ x := by rw [hxmax]; exact hzm
      rcases le_total z y with hzy | hyz
      · -- red is max, blue is min
        have hmin : min x (min y z) = z := by rw [min_eq_right hzy, min_eq_right hzx]
        have hzltx : z < x := by rw [hmax, hmin] at hlt; exact hlt
        have heq : rgb_to_hls x y z
            = (Int.fract (((x - z) / (x - z) - (x - y) / (x - z)) / 6), (x + z) / 2,
               if (x + z) / 2 ≤ 1 / 2 then (x - z) / (x + z) else (x - z) / (2 - (x + z))) := by
          simp [rgb_to_hls, hmax, hmin, ne_of_lt hzltx]
        rw [heq]
        dsimp only
        rw [hls_to_rgb_eval z x _ hz0 hzltx hx1]
        set t := (y - z) / (x - z) with htdef
        have hne : x - z ≠ 0 := sub_ne_zero.mpr (ne_of_gt hzltx)
        have ht0 : 0 ≤ t := div_nonneg (by linarith) (by linarith)
        have ht1 : t ≤ 1 := by rw [htdef, div_le_one (by linarith)]; linarith
        have h0t : ((x - z) / (x - z) - (x - y) / (x - z)) / 6 = t / 6 := by
          rw [htdef]; field_simp; try ring
        have hmul : (x - z) * t = y - z := by
          rw [htdef, mul_comm]; exact div_mul_cancel₀ _ hne
        simp only [Prod.mk.injEq]
        refine ⟨?_, ?_, ?_⟩
        · rw [h0t, hlsV_fract_add, hlsV_plateau_hi z x t ht0 ht1]
        · rw [h0t, hlsV_fract, hlsV_ramp_up z x t ht0 ht1]
          linarith
        · rw [h0t, show Int.fract (t / 6) - 1 / 3 = Int.fract (t / 6) + -(1 / 3) by ring,
            hlsV_fract_add, show t / 6 + -(1 / 3) = t / 6 - 1 / 3 by ring,
            hlsV_plateau_lo z x t ht0 ht1]
      · -- red is max, green is min
        have hmin : min x (min y z) = y := by rw [min_eq_left hyz, min_eq_right hyx]
        have hyltx : y < x := by rw [hmax, hmin] at hlt; exact hlt
        have heq : rgb_to_hls x y z
            = (Int.fract (((x - z) / (x - y) - (x - y) / (x - y)) / 6), (x + y) / 2,
               if (x + y) / 2 ≤ 1 / 2 then (x - y) / (x + y) else (x - y) / (2 - (x + y))) := by
          simp [rgb_to_hls, hmax, hmin, ne_of_lt hyltx]
        rw [heq]
        dsimp only
        rw [hls_to_rgb_eval y x _ hy0 hyltx hx1]
        set t := (z - y) / (x - y) with htdef
        have hne : x - y ≠ 0 := sub_ne_zero.mpr (ne_of_gt hyltx)
        have ht0 : 0 ≤ t := div_nonneg (by linarith) (by linarith)
        have ht1 : t ≤ 1 := by rw [htdef, div_le_one (by linarith)]; linarith
        have h0t : ((x - z) / (x - y) - (x - y) / (x - y)) / 6 = -(t / 6) := by
          rw [htdef]; field_simp; try ring
        have hmul : (x - y) * t = z - y := by
          rw [htdef, mul_comm]; exact div_mul_cancel₀ _ hne
        simp only [Prod.mk.injEq]
        refine ⟨?_, ?_, ?_⟩
        · rw [h0t, hlsV_fract_add, show -(t / 6) + 1 / 3 = 1 / 3 - t / 6 by ring,
            hlsV_plateau_hi_neg y x t ht0 ht1]
        · rw [h0t, hlsV_fract, hlsV_ramp_neg0 y x t ht0 ht1]
        · rw [h0t, show Int.fract (-(t / 6)) - 1 / 3 = Int.fract (-(t / 6)) + -(1 / 3) by ring,
            hlsV_fract_add, ← hlsV_add_one,
            show -(t / 6) + -(1 / 3) + 1 = 2 / 3 - t / 6 by ring,
            hlsV_ramp_down y x t ht0 ht1]
          linarith
    · by_cases hymax : y = max x (max y z)
      · have hmax : max x (max y z) = y := hymax.symm
        have hxy : x ≤ y := by rw [hymax]; exact hxm
        have hzy : z ≤ y := by rw [hymax]; exact hzm
        have hxney : ¬x = y := by rw [← hmax]; exact hxmax
        rcases le_total x z with hxz | hzx
        · -- green is max, red is min
          have hmin : min x (min y z) = x := by rw [min_eq_right hzy, min_eq_left hxz]
          have hxlty : x < y := by rw [hmax, hmin] at hlt; exact hlt
          have heq : rgb_to_hls x y z
              = (Int.fract ((2 + (y - x) / (y - x) - (y - z) / (y - x)) / 6), (y + x) / 2,
                 if (y + x) / 2 ≤ 1 / 2 then (y - x) / (y + x) else (y - x) / (2 - (y + x))) := by
            simp [rgb_to_hls, hmax, hmin, ne_of_lt hxlty, hxney]
          rw [heq]
          dsimp only
          rw [hls_to_rgb_eval x y _ hx0 hxlty hy1]
          set t := (z - x) / (y - x) with htdef
          have hne : y - x ≠ 0 := sub_ne_zero.mpr (ne_of_gt hxlty)
          have ht0 : 0 ≤ t := div_nonneg (by linarith) (by linarith)
          have ht1 : t ≤ 1 := by rw [htdef, div_le_one (by linarith)]; linarith
          have h0t : ((2 + (y - x) / (y - x) - (y - z) / (y - x)) / 6) = t / 6 + 1 / 3 := by
            rw [htdef]; field_simp; try ring
          have hmul : (y - x) * t = z - x := by
            rw [htdef, mul_comm]; exact div_mul_cancel₀ _ hne
          simp only [Prod.mk.injEq]
          refine ⟨?_, ?_, ?_⟩
          · rw [h0t, hlsV_fract_add, show t / 6 + 1 / 3 + 1 / 3 = t / 6 + 2 / 3 by ring,
              hlsV_plateau_lo2 x y t ht0 ht1]
          · rw [h0t, hlsV_fract, hlsV_plateau_hi x y t ht0 ht1]
          · rw [h0t, show Int.fract (t / 6 + 1 / 3) - 1 / 3
                = Int.fract (t / 6 + 1 / 3) + -(1 / 3) by ring,
              hlsV_fract_add, show t / 6 + 1 / 3 + -(1 / 3) = t / 6 by ring,
              hlsV_ramp_up x y t ht0 ht1]
            linarith
        · -- green is max, blue is min
          have hmin : min x (min y z) = z := by rw [min_eq_right hzy, min_eq_right hzx]
          have hzlty : z < y := by rw [hmax, hmin] at hlt; exact hlt
          have heq : rgb_to_hls x y z
              = (Int.fract ((2 + (y - x) / (y - z) - (y - z) / (y - z)) / 6), (y + z) / 2,
                 if (y + z) / 2 ≤ 1 / 2 then (y - z) / (y + z) else (y - z) / (2 - (y + z))) := by
            simp [rgb_to_hls, hmax, hmin, ne_of_lt hzlty, hxney]
          rw [heq]
          dsimp only
          rw [hls_to_rgb_eval z y _ hz0 hzlty hy1]
          set t := (x - z) / (y - z) with htdef
          have hne : y - z ≠ 0 := sub_ne_zero.mpr (ne_of_gt hzlty)
          have ht0 : 0 ≤ t := div_nonneg (by linarith) (by linarith)
          have ht1 : t ≤ 1 := by rw [htdef, div_le_one (by linarith)]; linarith
          have h0t : ((2 + (y - x) / (y - z) - (y - z) / (y - z)) / 6) = 1 / 3 - t / 6 := by
            rw [htdef]; field_simp; try ring
          have hmul : (y - z) * t = x - z := by
            rw [htdef, mul_comm]; exact div_mul_cancel₀ _ hne
          simp only [Prod.mk.injEq]
          refine ⟨?_, ?_, ?_⟩
          · rw [h0t, hlsV_fract_add, show 1 / 3 - t / 6 + 1 / 3 = 2 / 3 - t / 6 by ring,
              hlsV_ramp_down z y t ht0 ht1]
            linarith
          · rw [h0t, hlsV_fract, hlsV_plateau_hi_neg z y t ht0 ht1]
          · rw [h0t, show Int.fract (1 / 3 - t / 6) - 1 / 3
                = Int.fract (1 / 3 - t / 6) + -(1 / 3) by ring,
              hlsV_fract_add, show 1 / 3 - t / 6 + -(1 / 3) = -(t / 6) by ring,
              hlsV_ramp_neg0 z y t ht0 ht1]
      · have hzmax : z = max x (max y z) := by
          rcases max_choice x (max y z) with h | h
          · exact absurd h.symm hxmax
          · rcases max_choice y z with h2 | h2
            · exact absurd (h.trans h2).symm hymax
            · exact (h.trans h2).symm
        have hmax : max x (max y z) = z := hzmax.symm
        have hxz : x ≤ z := by rw [hzmax]; exact hxm
        have hyz : y ≤ z := by rw [hzmax]; exact hym
        have hxnez : ¬x = z := by rw [← hmax]; exact hxmax
        have hynez : ¬y = z := by rw [← hmax]; exact hymax
        rcases le_total y x with hyx | hxy
        · -- blue is max, green is min
          have hmin : min x (min y z) = y := by rw [min_eq_left hyz, min_eq_right hyx]
          have hyltz : y < z := by rw [hmax, hmin] at hlt; exact hlt
          have heq : rgb_to_hls x y z
              = (Int.fract ((4 + (z - y) / (z - y) - (z - x) / (z - y)) / 6), (z + y) / 2,
                 if (z + y) / 2 ≤ 1 / 2 then (z - y) / (z + y) else (z - y) / (2 - (z + y))) := by
            simp [rgb_to_hls, hmax, hmin, ne_of_lt hyltz, hxnez, hynez]
          rw [heq]
          dsimp only
          rw [hls_to_rgb_eval y z _ hy0 hyltz hz1]
          set t := (x - y) / (z - y) with htdef
          have hne : z - y ≠ 0 := sub_ne_zero.mpr (ne_of_gt hyltz)
          have ht0 : 0 ≤ t := div_nonneg (by linarith) (by linarith)
          have ht1 : t ≤ 1 := by rw [htdef, div_le_one (by linarith)]; linarith
          have h0t : ((4 + (z - y) / (z - y) - (z - x) / (z - y)) / 6) = t / 6 + 2 / 3 := by
            rw [htdef]; field_simp; try ring
          have hmul : (z - y) * t = x - y := by
            rw [htdef, mul_comm]; exact div_mul_cancel₀ _ hne
          simp only [Prod.mk.injEq]
          refine ⟨?_, ?_, ?_⟩
          · rw [h0t, hlsV_fract_add, show t / 6 + 2 / 3 + 1 / 3 = t / 6 + 1 by ring,
              hlsV_add_one, hlsV_ramp_up y z t ht0 ht1]
            linarith
          · rw [h0t, hlsV_fract, hlsV_plateau_lo2 y z t ht0 ht1]
          · rw [h0t, show Int.fract (t / 6 + 2 / 3) - 1 / 3
                = Int.fract (t / 6 + 2 / 3) + -(1 / 3) by ring,
              hlsV_fract_add, show t / 6 + 2 / 3 + -(1 / 3) = t / 6 + 1 / 3 by ring,
              hlsV_plateau_hi y z t ht0 ht1]
        · -- blue is max, red is min
          have hmin : min x (min y z) = x := by rw [min_eq_left hyz, min_eq_left hxy]
          have hxltz : x < z := by rw [hmax, hmin] at hlt; exact hlt
          have heq : rgb_to_hls x y z
              = (Int.fract ((4 + (z - y) / (z - x) - (z - x) / (z - x)) / 6), (z + x) / 2,
                 if (z + x) / 2 ≤ 1 / 2 then (z - x) / (z + x) else (z - x) / (2 - (z + x))) := by
            simp [rgb_to_hls, hmax, hmin, ne_of_lt hxltz, hxnez, hynez]
          rw [heq]
          dsimp only
          rw [hls_to_rgb_eval x z _ hx0 hxltz hz1]
          set t := (y - x) / (z - x) with htdef
          have hne : z - x ≠ 0 := sub_ne_zero.mpr (ne_of_gt hxltz)
          have ht0 : 0 ≤ t := div_nonneg (by linarith) (by linarith)
          have ht1 : t ≤ 1 := by rw [htdef, div_le_one (by linarith)]; linarith
          have h0t : ((4 + (z - y) / (z - x) - (z - x) / (z - x)) / 6) = 2 / 3 - t / 6 := by
            rw [htdef]; field_simp; try ring
          have hmul : (z - x) * t = y - x := by
            rw [htdef, mul_comm]; exact div_mul_cancel₀ _ hne
          simp only [Prod.mk.injEq]
          refine ⟨?_, ?_, ?_⟩
          · rw [h0t, hlsV_fract_add, show 2 / 3 - t / 6 + 1 / 3 = -(t / 6) + 1 by ring,
              hlsV_add_one, hlsV_ramp_neg0 x z t ht0 ht1]
          · rw [h0t, hlsV_fract, hlsV_ramp_down x z t ht0 ht1]
            linarith
          · rw [h0t, show Int.fract (2 / 3 - t / 6) - 1 / 3
                = Int.fract (2 / 3 - t / 6) + -(1 / 3) by ring,
              hlsV_fract_add, show 2 / 3 - t / 6 + -(1 / 3) = 1 / 3 - t / 6 by ring,
              hlsV_plateau_hi_neg x z t ht0 ht1]

theorem pyint_intCast (n : ℤ) : pyint (n : ℚ) = n := by
  simp only [pyint]
  split_ifs with h
  · rw [← Int.cast_neg, Int.floor_intCast, neg_neg]
  · exact Int.floor_intCast n

/-- C2: for every RGB triple with channels in `[0,255]`, converting to
HSL with `rgb_to_hsl` and back with `hsl_to_rgb` returns the original
triple exactly — in particular every channel differs by at most 1 unit,
and the two functions are inverses on integer channel values. -/
theorem hsl_rgb_roundtrip (r g b : ℤ)
    (hr0 : 0 ≤ r) (hr1 : r ≤ 255) (hg0 : 0 ≤ g) (hg1 : g ≤ 255)
    (hb0 : 0 ≤ b) (hb1 : b ≤ 255) :
    hsl_to_rgb (rgb_to_hsl (r, g, b)) = (r, g, b)
    ∧ |(hsl_to_rgb (rgb_to_hsl (r, g, b))).1 - r| ≤ 1
    ∧ |(hsl_to_rgb (rgb_to_hsl (r, g, b))).2.1 - g| ≤ 1
    ∧ |(hsl_to_rgb (rgb_to_hsl (r, g, b))).2.2 - b| ≤ 1 := by
  have h255 : (0 : ℚ) < 255 := by norm_num
  have hrt := rgb_to_hls_roundtrip ((r : ℚ) / 255) ((g : ℚ) / 255) ((b : ℚ) / 255)
    (div_nonneg (by exact_mod_cast hr0) h255.le)
    ((div_le_one h255).mpr (by exact_mod_cast hr1))
    (div_nonneg (by exact_mod_cast hg0) h255.le)
    ((div_le_one h255).mpr (by exact_mod_cast hg1))
    (div_nonneg (by exact_mod_cast hb0) h255.le)
    ((div_le_one h255).mpr (by exact_mod_cast hb1))
  have hmain : hsl_to_rgb (rgb_to_hsl (r, g, b)) = (r, g, b) := by
    simp only [rgb_to_hsl, hsl_to_rgb]
    rw [mul_div_cancel_right₀ _ (by norm_num : (360 : ℚ) ≠ 0),
      mul_div_cancel_right₀ _ (by norm_num : (100 : ℚ) ≠ 0),
      mul_div_cancel_right₀ _ (by norm_num : (100 : ℚ) ≠ 0), hrt]
    simp only
    rw [div_mul_cancel₀ _ (ne_of_gt h255), div_mul_cancel₀ _ (ne_of_gt h255),
      div_mul_cancel₀ _ (ne_of_gt h255), pyint_intCast, pyint_intCast, pyint_intCast]
  refine ⟨hmain, ?_, ?_, ?_⟩ <;> rw [hmain] <;> simp

theorem hsl_rgb_roundtrip_witness :
    hsl_to_rgb (rgb_to_hsl (200, 10, 10)) = (200, 10, 10) :=
  (hsl_rgb_roundtrip 200 10 10 (by norm_num) (by norm_num) (by norm_num)
    (by norm_num) (by norm_num) (by norm_num)).1

/-! ### Claim C7: the complementary color matches -/

theorem fract_fract_add (u c : ℚ) :
    Int.fract (Int.fract u + c) = Int.fract (u + c) := by
  rw [show Int.fract u + c = (u + c) - (⌊u⌋ : ℚ) by rw [Int.fract]; ring]
  exact Int.fract_sub_int _ _

/-- Rotating the hue by half a turn reflects the trapezoid profile:
`_v(m1, m2, u + 1/2) = m1 + m2 − _v(m1, m2, u)`. -/
theorem hlsV_half_shift (m1 m2 u : ℚ) :
    hlsV m1 m2 (u + 1 / 2) = m1 + m2 - hlsV m1 m2 u := by
  rw [← hlsV_fract m1 m2 u, ← hlsV_fract_add m1 m2 u (1 / 2)]
  set f := Int.fract u with hf
  have hf0 : 0 ≤ f := Int.fract_nonneg u
  have hf1 : f < 1 := Int.fract_lt_one u
  clear_value f
  have hfr2 : Int.fract f = f := Int.fract_eq_self.mpr ⟨hf0, hf1⟩
  rcases lt_or_ge f (1 / 2) with hlo | hhi
  · have hfr : Int.fract (f + 1 / 2) = f + 1 / 2 :=
      Int.fract_eq_self.mpr ⟨by linarith, by linarith⟩
    simp only [hlsV, hfr, hfr2]
    split_ifs
    all_goals (try ring)
    all_goals linarith
  · have hfr : Int.fract (f + 1 / 2) = f - 1 / 2 := by
      have hstep := Int.fract_sub_int (f + 1 / 2) 1
      rw [show f + 1 / 2 - ((1 : ℤ) : ℚ) = f - 1 / 2 by push_cast; ring] at hstep
      rw [← hstep]
      exact Int.fract_eq_self.mpr ⟨by linarith, by linarith⟩
    simp only [hlsV, hfr, hfr2]
    split_ifs
    all_goals (try ring)
    all_goals linarith

/-- `hls_to_rgb` after a half-turn hue rotation: every channel is
reflected through `m1 + m2 = 2l`. -/
theorem hls_to_rgb_hue_half_shift (h l s : ℚ) (hs : ¬s = 0) :
    hls_to_rgb (Int.fract (h + 1 / 2)) l s
      = (2 * l - (hls_to_rgb h l s).1,
         2 * l - (hls_to_rgb h l s).2.1,
         2 * l - (hls_to_rgb h l s).2.2) := by
  simp only [hls_to_rgb, if_neg hs]
  have key : ∀ m2 δ, hlsV (2 * l - m2) m2 (Int.fract (h + 1 / 2) + δ)
      = 2 * l - hlsV (2 * l - m2) m2 (h + δ) := by
    intro m2 δ
    rw [hlsV_fract_add, show h + 1 / 2 + δ = (h + δ) + 1 / 2 by ring, hlsV_half_shift]
    ring
  have key0 : ∀ m2, hlsV (2 * l - m2) m2 (Int.fract (h + 1 / 2))
      = 2 * l - hlsV (2 * l - m2) m2 h := by
    intro m2
    have := key m2 0
    simpa using this
  have keySub : ∀ m2, hlsV (2 * l - m2) m2 (Int.fract (h + 1 / 2) - 1 / 3)
      = 2 * l - hlsV (2 * l - m2) m2 (h - 1 / 3) := by
    intro m2
    rw [show Int.fract (h + 1 / 2) - 1 / 3 = Int.fract (h + 1 / 2) + -(1 / 3) by ring,
      key m2 (-(1 / 3)), show h + -(1 / 3) = h - 1 / 3 by ring]
  split_ifs with hl
  · rw [key, key0, keySub]
  · rw [key, key0, keySub]

/-- Python's `((h + 180) % 360) / 360` is `fract(h/360 + 1/2)`. -/
theorem pymod_div_fract (X : ℚ) : pymod X 360 / 360 = Int.fract (X / 360) := by
  simp only [pymod, Int.fract]
  field_simp

/-- The lightness component of `rgb_to_hls` is always `(max+min)/2`. -/
theorem rgb_to_hls_l (x y z : ℚ) :
    (rgb_to_hls x y z).2.1 = (max x (max y z) + min x (min y z)) / 2 := by
  simp only [rgb_to_hls]
  split_ifs <;> rfl

/-- On non-gray channels in `[0,1]` the saturation of `rgb_to_hls` is
nonzero. -/
theorem rgb_to_hls_s_ne (x y z : ℚ)
    (hx0 : 0 ≤ x) (hx1 : x ≤ 1) (hy0 : 0 ≤ y) (hy1 : y ≤ 1)
    (hz0 : 0 ≤ z) (hz1 : z ≤ 1)
    (hgray : ¬min x (min y z) = max x (max y z)) :
    ¬(rgb_to_hls x y z).2.2 = 0 := by
  have hle : min x (min y z) ≤ max x (max y z) :=
    le_trans (min_le_left _ _) (le_max_left _ _)
  have hlt : min x (min y z) < max x (max y z) := lt_of_le_of_ne hle hgray
  have hmn0 : 0 ≤ min x (min y z) := le_min hx0 (le_min hy0 hz0)
  have hmx1 : max x (max y z) ≤ 1 := max_le hx1 (max_le hy1 hz1)
  have hsum : 0 < max x (max y z) + min x (min y z) := by linarith
  have hsum2 : max x (max y z) + min x (min y z) < 2 := by linarith
  simp only [rgb_to_hls, if_neg hgray]
  split_ifs
  · exact div_ne_zero (by linarith) (by linarith)
  · exact div_ne_zero (by linarith) (by linarith)

/-- Reflecting every channel through `min + max` rotates the
`rgb_to_hls` hue by exactly half a turn. -/
theorem rgb_to_hls_comp_hue (x y z : ℚ)
    (hgray : ¬min x (min y z) = max x (max y z)) :
    (rgb_to_hls (min x (min y z) + max x (max y z) - x)
        (min x (min y z) + max x (max y z) - y)
        (min x (min y z) + max x (max y z) - z)).1
      = Int.fract ((rgb_to_hls x y z).1 + 1 / 2) := by
  have hle : min x (min y z) ≤ max x (max y z) :=
    le_trans (min_le_left _ _) (le_max_left _ _)
  have hlt : min x (min y z) < max x (max y z) := lt_of_le_of_ne hle hgray
  have hxm : x ≤ max x (max y z) := le_max_left _ _
  have hym : y ≤ max x (max y z) := le_trans (le_max_left _ _) (le_max_right _ _)
  have hzm : z ≤ max x (max y z) := le_trans (le_max_right _ _) (le_max_right _ _)
  by_cases hxmax : x = max x (max y z)
  · have hmax : max x (max y z) = x := hxmax.symm
    have hyx : y ≤ x := by rw [hxmax]; exact hym
    have hzx : z ≤ x := by rw [hxmax]; exact hzm
    rcases le_total z y with hzy | hyz
    · -- red is max, blue is min; complement channels are (z, z+x-y, x)
      have hmin : min x (min y z) = z := by rw [min_eq_right hzy, min_eq_right hzx]
      have hzltx : z < x := by rw [hmax, hmin] at hlt; exact hlt
      have hnzx : ¬(z = x) := ne_of_lt hzltx
      have hne : x - z ≠ 0 := sub_ne_zero.mpr (ne_of_gt hzltx)
      have heq1 : (rgb_to_hls x y z).1
          = Int.fract (((x - z) / (x - z) - (x - y) / (x - z)) / 6) := by
        simp [rgb_to_hls, hmax, hmin, ne_of_lt hzltx]
      rw [hmin, hmax, heq1, fract_fract_add,
        show z + x - x = z by ring, show z + x - z = x by ring]
      have hmidlo : z ≤ z + x - y := by linarith
      have hmidhi : z + x - y ≤ x := by linarith
      have hmax2 : max z (max (z + x - y) x) = x := by
        rw [max_eq_right hmidhi, max_eq_right hzx]
      have hmin2 : min z (min (z + x - y) x) = z := by
        rw [min_eq_left hmidhi, min_eq_left hmidlo]
      simp only [rgb_to_hls]
      rw [hmax2, hmin2, if_neg hnzx]
      dsimp only
      rw [if_neg hnzx]
      by_cases hyzeq : y = z
      · rw [if_pos (show z + x - y = x by rw [hyzeq]; ring)]
        refine (Int.fract_eq_fract).mpr ⟨0, ?_⟩
        rw [hyzeq]
        push_cast
        field_simp
        try ring
      · rw [if_neg (show ¬(z + x - y = x) from fun hc => hyzeq (by linarith))]
        refine (Int.fract_eq_fract).mpr ⟨0, ?_⟩
        push_cast
        field_simp
        try ring
    · -- red is max, green is min; complement channels are (y, x, y+x-z)
      have hmin : min x (min y z) = y := by rw [min_eq_left hyz, min_eq_right hyx]
      have hyltx : y < x := by rw [hmax, hmin] at hlt; exact hlt
      have hnyx : ¬(y = x) := ne_of_lt hyltx
      have hne : x - y ≠ 0 := sub_ne_zero.mpr (ne_of_gt hyltx)
      have heq1 : (rgb_to_hls x y z).1
          = Int.fract (((x - z) / (x - y) - (x - y) / (x - y)) / 6) := by
        simp [rgb_to_hls, hmax, hmin, ne_of_lt hyltx]
      rw [hmin, hmax, heq1, fract_fract_add,
        show y + x - x = y by ring, show y + x - y = x by ring]
      have hmidlo : y ≤ y + x - z := by linarith
      have hmidhi : y + x - z ≤ x := by linarith
      have hmax2 : max y (max x (y + x - z)) = x := by
        rw [max_eq_left hmidhi, max_eq_right hyx]
      have hmin2 : min y (min x (y + x - z)) = y := by
        rw [min_eq_right hmidhi, min_eq_left hmidlo]
      simp only [rgb_to_hls]
      rw [hmax2, hmin2, if_neg hnyx]
      dsimp only
      rw [if_neg hnyx, if_pos (rfl : x = x)]
      refine (Int.fract_eq_fract).mpr ⟨0, ?_⟩
      push_cast
      field_simp
      try ring
  · by_cases hymax : y = max x (max y z)
    · have hmax : max x (max y z) = y := hymax.symm
      have hxy : x ≤ y := by rw [hymax]; exact hxm
      have hzy : z ≤ y := by rw [hymax]; exact hzm
      have hxney : ¬x = y := by rw [← hmax]; exact hxmax
      rcases le_total x z with hxz | hzx
      · -- green is max, red is min; complement channels are (y, x, x+y-z)
        have hmin : min x (min y z) = x := by rw [min_eq_right hzy, min_eq_left hxz]
        have hxlty : x < y := by rw [hmax, hmin] at hlt; exact hlt
        have hnxy : ¬(x = y) := ne_of_lt hxlty
        have hne : y - x ≠ 0 := sub_ne_zero.mpr (ne_of_gt hxlty)
        have heq1 : (rgb_to_hls x y z).1
            = Int.fract ((2 + (y - x) / (y - x) - (y - z) / (y - x)) / 6) := by
          simp [rgb_to_hls, hmax, hmin, ne_of_lt hxlty, hxney]
        rw [hmin, hmax, heq1, fract_fract_add,
          show x + y - x = y by ring, show x + y - y = x by ring]
        have hmidlo : x ≤ x + y - z := by linarith
        have hmidhi : x + y - z ≤ y := by linarith
        have hmax2 : max y (max x (x + y - z)) = y := by
          rw [max_eq_right hmidlo, max_eq_left hmidhi]
        have hmin2 : min y (min x (x + y - z)) = x := by
          rw [min_eq_left hmidlo, min_eq_right hxy]
        simp only [rgb_to_hls]
        rw [hmax2, hmin2, if_neg (show ¬(x = y) from hnxy)]
        dsimp only
        rw [if_pos (rfl : y = y)]
        refine (Int.fract_eq_fract).mpr ⟨-1, ?_⟩
        push_cast
        field_simp
        try ring
      · -- green is max, blue is min; complement channels are (z+y-x, z, y)
        have hmin : min x (min y z) = z := by rw [min_eq_right hzy, min_eq_right hzx]
        have hzlty : z < y := by rw [hmax, hmin] at hlt; exact hlt
        have hnzy : ¬(z = y) := ne_of_lt hzlty
        have hne : y - z ≠ 0 := sub_ne_zero.mpr (ne_of_gt hzlty)
        have heq1 : (rgb_to_hls x y z).1
            = Int.fract ((2 + (y - x) / (y - z) - (y - z) / (y - z)) / 6) := by
          simp [rgb_to_hls, hmax, hmin, ne_of_lt hzlty, hxney]
        rw [hmin, hmax, heq1, fract_fract_add,
          show z + y - y = z by ring, show z + y - z = y by ring]
        have hmidlo : z ≤ z + y - x := by linarith
        have hmidhi : z + y - x ≤ y := by linarith
        have hmax2 : max (z + y - x) (max z y) = y := by
          rw [max_eq_right hzlty.le, max_eq_right hmidhi]
        have hmin2 : min (z + y - x) (min z y) = z := by
          rw [min_eq_left hzlty.le, min_eq_right hmidlo]
        simp only [rgb_to_hls]
        rw [hmax2, hmin2, if_neg hnzy]
        dsimp only
        by_cases hxzeq : x = z
        · rw [if_pos (show z + y - x = y by rw [hxzeq]; ring)]
          refine (Int.fract_eq_fract).mpr ⟨-1, ?_⟩
          rw [hxzeq]
          push_cast
          field_simp
          try ring
        · rw [if_neg (show ¬(z + y - x = y) from fun hc => hxzeq (by linarith)),
            if_neg hnzy]
          refine (Int.fract_eq_fract).mpr ⟨0, ?_⟩
          push_cast
          field_simp
          try ring
    · have hzmax : z = max x (max y z) := by
        rcases max_choice x (max y z) with h | h
        · exact absurd h.symm hxmax
        · rcases max_choice y z with h2 | h2
          · exact absurd (h.trans h2).symm hymax
          · exact (h.trans h2).symm
      have hmax : max x (max y z) = z := hzmax.symm
      have hxz : x ≤ z := by rw [hzmax]; exact hxm
      have hyz : y ≤ z := by rw [hzmax]; exact hym
      have hxnez : ¬x = z := by rw [← hmax]; exact hxmax
      have hynez : ¬y = z := by rw [← hmax]; exact hymax
      rcases le_total y x with hyx | hxy
      · -- blue is max, green is min; complement channels are (y+z-x, z, y)
        have hmin : min x (min y z) = y := by rw [min_eq_left hyz, min_eq_right hyx]
        have hyltz : y < z := by rw [hmax, hmin] at hlt; exact hlt
        have hne : z - y ≠ 0 := sub_ne_zero.mpr (ne_of_gt hyltz)
        have heq1 : (rgb_to_hls x y z).1
            = Int.fract ((4 + (z - y) / (z - y) - (z - x) / (z - y)) / 6) := by
          simp [rgb_to_hls, hmax, hmin, ne_of_lt hyltz, hxnez, hynez]
        rw [hmin, hmax, heq1, fract_fract_add,
          show y + z - y = z by ring, show y + z - z = y by ring]
        have hmidlo : y ≤ y + z - x := by linarith
        have hmidhi : y + z - x ≤ z := by linarith
        have hmax2 : max (y + z - x) (max z y) = z := by
          rw [max_eq_left hyltz.le, max_eq_right hmidhi]
        have hmin2 : min (y + z - x) (min z y) = y := by
          rw [min_eq_right hyltz.le, min_eq_right hmidlo]
        simp only [rgb_to_hls]
        rw [hmax2, hmin2, if_neg (show ¬(y = z) from hynez)]
        dsimp only
        by_cases hxyeq : x = y
        · rw [if_pos (show y + z - x = z by rw [hxyeq]; ring)]
          refine (Int.fract_eq_fract).mpr ⟨-1, ?_⟩
          rw [hxyeq]
          push_cast
          field_simp
          try ring
        · rw [if_neg (show ¬(y + z - x = z) from fun hc => hxyeq (by linarith)),
            if_pos (rfl : z = z)]
          refine (Int.fract_eq_fract).mpr ⟨-1, ?_⟩
          push_cast
          field_simp
          try ring
      · -- blue is max, red is min; complement channels are (z, x+z-y, x)
        have hmin : min x (min y z) = x := by rw [min_eq_left hyz, min_eq_left hxy]
        have hxltz : x < z := by rw [hmax, hmin] at hlt; exact hlt
        have hne : z - x ≠ 0 := sub_ne_zero.mpr (ne_of_gt hxltz)
        have heq1 : (rgb_to_hls x y z).1
            = Int.fract ((4 + (z - y) / (z - x) - (z - x) / (z - x)) / 6) := by
          simp [rgb_to_hls, hmax, hmin, ne_of_lt hxltz, hxnez, hynez]
        rw [hmin, hmax, heq1, fract_fract_add,
          show x + z - x = z by ring, show x + z - z = x by ring]
        have hmidlo : x ≤ x + z - y := by linarith
        have hmidhi : x + z - y ≤ z := by linarith
        have hmax2 : max z (max (x + z - y) x) = z := by
          rw [max_eq_left hmidlo, max_eq_left hmidhi]
        have hmin2 : min z (min (x + z - y) x) = x := by
          rw [min_eq_right hmidlo, min_eq_right hxltz.le]
        simp only [rgb_to_hls]
        rw [hmax2, hmin2, if_neg (show ¬(x = z) from hxnez)]
        dsimp only
        rw [if_pos (rfl : z = z)]
        refine (Int.fract_eq_fract).mpr ⟨-1, ?_⟩
        push_cast
        field_simp
        try ring

theorem maxQ_eq (r g b : ℤ) :
    max ((r : ℚ) / 255) (max ((g : ℚ) / 255) ((b : ℚ) / 255))
      = ((max r (max g b) : ℤ) : ℚ) / 255 := by
  rw [max_div_div_right (by norm_num : (0 : ℚ) ≤ 255),
    max_div_div_right (by norm_num : (0 : ℚ) ≤ 255)]
  norm_cast

theorem minQ_eq (r g b : ℤ) :
    min ((r : ℚ) / 255) (min ((g : ℚ) / 255) ((b : ℚ) / 255))
      = ((min r (min g b) : ℤ) : ℚ) / 255 := by
  rw [min_div_div_right (by norm_num : (0 : ℚ) ≤ 255),
    min_div_div_right (by norm_num : (0 : ℚ) ≤ 255)]
  norm_cast

theorem grayQ_of (r g b : ℤ) (hgray : ¬min r (min g b) = max r (max g b)) :
    ¬min ((r : ℚ) / 255) (min ((g : ℚ) / 255) ((b : ℚ) / 255))
      = max ((r : ℚ) / 255) (max ((g : ℚ) / 255) ((b : ℚ) / 255)) := by
  rw [minQ_eq, maxQ_eq]
  intro h
  apply hgray
  have h2 : ((min r (min g b) : ℤ) : ℚ) = ((max r (max g b) : ℤ) : ℚ) := by
    field_simp at h
    exact_mod_cast h
  exact_mod_cast h2

/-- `get_complementary` on a non-gray integer color reflects every
channel through `min + max`: the hue rotation by 180° is exact, no
truncation occurs. -/
theorem get_complementary_eq (r g b : ℤ)
    (hr0 : 0 ≤ r) (hr1 : r ≤ 255) (hg0 : 0 ≤ g) (hg1 : g ≤ 255)
    (hb0 : 0 ≤ b) (hb1 : b ≤ 255)
    (hgray : ¬min r (min g b) = max r (max g b)) :
    get_complementary (r, g, b)
      = (min r (min g b) + max r (max g b) - r,
         min r (min g b) + max r (max g b) - g,
         min r (min g b) + max r (max g b) - b) := by
  have h255 : (0 : ℚ) < 255 := by norm_num
  have hgrayQ := grayQ_of r g b hgray
  have hs := rgb_to_hls_s_ne ((r : ℚ) / 255) ((g : ℚ) / 255) ((b : ℚ) / 255)
    (div_nonneg (by exact_mod_cast hr0) h255.le)
    ((div_le_one h255).mpr (by exact_mod_cast hr1))
    (div_nonneg (by exact_mod_cast hg0) h255.le)
    ((div_le_one h255).mpr (by exact_mod_cast hg1))
    (div_nonneg (by exact_mod_cast hb0) h255.le)
    ((div_le_one h255).mpr (by exact_mod_cast hb1)) hgrayQ
  have hrt := rgb_to_hls_roundtrip ((r : ℚ) / 255) ((g : ℚ) / 255) ((b : ℚ) / 255)
    (div_nonneg (by exact_mod_cast hr0) h255.le)
    ((div_le_one h255).mpr (by exact_mod_cast hr1))
    (div_nonneg (by exact_mod_cast hg0) h255.le)
    ((div_le_one h255).mpr (by exact_mod_cast hg1))
    (div_nonneg (by exact_mod_cast hb0) h255.le)
    ((div_le_one h255).mpr (by exact_mod_cast hb1))
  have hcompv : ∀ c : ℤ,
      pyint ((2 * ((((max r (max g b) : ℤ) : ℚ) / 255 + ((min r (min g b) : ℤ) : ℚ) / 255) / 2)
        - (c : ℚ) / 255) * 255) = min r (min g b) + max r (max g b) - c := by
    intro c
    rw [show (2 * ((((max r (max g b) : ℤ) : ℚ) / 255 + ((min r (min g b) : ℤ) : ℚ) / 255) / 2)
        - (c : ℚ) / 255) * 255 = ((min r (min g b) + max r (max g b) - c : ℤ) : ℚ) by
      push_cast; ring]
    exact pyint_intCast _
  simp only [get_complementary, rgb_to_hsl, hsl_to_rgb]
  rw [mul_div_cancel_right₀ _ (by norm_num : (100 : ℚ) ≠ 0),
    mul_div_cancel_right₀ _ (by norm_num : (100 : ℚ) ≠ 0),
    pymod_div_fract,
    show ((rgb_to_hls ((r : ℚ) / 255) ((g : ℚ) / 255) ((b : ℚ) / 255)).1 * 360 + 180) / 360
      = (rgb_to_hls ((r : ℚ) / 255) ((g : ℚ) / 255) ((b : ℚ) / 255)).1 + 1 / 2 by ring,
    hls_to_rgb_hue_half_shift _ _ _ hs, hrt, rgb_to_hls_l, maxQ_eq, minQ_eq]
  simp only
  rw [hcompv r, hcompv g, hcompv b]

/-- The `complementary` test of `colors_match` accepts whenever the
circular hue difference is exactly 180. -/
theorem colors_match_complementary_of_hueDiff (c1 c2 : RGB)
    (h : hueDiff (rgb_to_hsl c1).1 (rgb_to_hsl c2).1 = 180) :
    colors_match c1 c2 "complementary" 30 = true := by
  simp only [colors_match, if_true]
  rw [h]
  norm_num

theorem hueDiff_half_turn (f : ℚ) (hf0 : 0 ≤ f) (hf1 : f < 1) :
    hueDiff (f * 360) (Int.fract (f + 1 / 2) * 360) = 180 := by
  rcases lt_or_ge f (1 / 2) with hlo | hhi
  · rw [Int.fract_eq_self.mpr ⟨by linarith, by linarith⟩]
    simp only [hueDiff]
    rw [show f * 360 - (f + 1 / 2) * 360 = -180 by ring]
    norm_num
  · have hfr : Int.fract (f + 1 / 2) = f - 1 / 2 := by
      have hstep := Int.fract_sub_int (f + 1 / 2) 1
      rw [show f + 1 / 2 - ((1 : ℤ) : ℚ) = f - 1 / 2 by push_cast; ring] at hstep
      rw [← hstep]
      exact Int.fract_eq_self.mpr ⟨by linarith, by linarith⟩
    rw [hfr]
    simp only [hueDiff]
    rw [show f * 360 - (f - 1 / 2) * 360 = 180 by ring]
    norm_num

/-- C7: for every non-gray color, `colors_match` accepts the color and
its computed complementary under the `complementary` scheme with the
default tolerance 30 (the circular hue difference is exactly 180°). -/
theorem complementary_color_matches (r g b : ℤ)
    (hr0 : 0 ≤ r) (hr1 : r ≤ 255) (hg0 : 0 ≤ g) (hg1 : g ≤ 255)
    (hb0 : 0 ≤ b) (hb1 : b ≤ 255)
    (hgray : ¬min r (min g b) = max r (max g b)) :
    colors_match (r, g, b) (get_complementary (r, g, b)) "complementary" 30 = true := by
  have hgrayQ := grayQ_of r g b hgray
  rw [get_complementary_eq r g b hr0 hr1 hg0 hg1 hb0 hb1 hgray]
  have hargs : ∀ c : ℤ, ((min r (min g b) + max r (max g b) - c : ℤ) : ℚ) / 255
      = min ((r : ℚ) / 255) (min ((g : ℚ) / 255) ((b : ℚ) / 255))
        + max ((r : ℚ) / 255) (max ((g : ℚ) / 255) ((b : ℚ) / 255)) - (c : ℚ) / 255 := by
    intro c
    rw [minQ_eq, maxQ_eq]
    push_cast
    ring
  have h2 : (rgb_to_hsl (min r (min g b) + max r (max g b) - r,
        min r (min g b) + max r (max g b) - g,
        min r (min g b) + max r (max g b) - b)).1
      = Int.fract ((rgb_to_hls ((r : ℚ) / 255) ((g : ℚ) / 255) ((b : ℚ) / 255)).1 + 1 / 2)
        * 360 := by
    simp only [rgb_to_hsl]
    rw [hargs r, hargs g, hargs b, rgb_to_hls_comp_hue _ _ _ hgrayQ]
  apply colors_match_complementary_of_hueDiff
  rw [show (rgb_to_hsl (r, g, b)).1
      = (rgb_to_hls ((r : ℚ) / 255) ((g : ℚ) / 255) ((b : ℚ) / 255)).1 * 360 from rfl, h2]
  exact hueDiff_half_turn _
    (rgb_to_hls_h_nonneg ((r : ℚ) / 255) ((g : ℚ) / 255) ((b : ℚ) / 255))
    (rgb_to_hls_h_lt_one ((r : ℚ) / 255) ((g : ℚ) / 255) ((b : ℚ) / 255))

theorem complementary_color_matches_witness :
    colors_match (200, 10, 10) (get_complementary (200, 10, 10)) "complementary" 30 = true :=
  complementary_color_matches 200 10 10 (by norm_num) (by norm_num) (by norm_num)
    (by norm_num) (by norm_num) (by norm_num) (by norm_num)

end BestFit
